import Mathlib

/-!
Shallow embedding of the simulation core of the `newhex` network-building game
(hex-lattice router, line manager, ETA estimator, vehicle motion engine,
passenger lifecycle manager, fleet allocator), together with theorems settling
the specification claims.

Modelling conventions:
* JS numbers holding times, counters and random draws are modelled as `ℚ`
  (they are only added, compared, rounded); coordinates and derived geometry
  are modelled as `ℝ` because the source takes square roots (`Math.hypot`,
  `Math.sqrt(3)`).  Float rounding and NaN are outside the model.
* JS `undefined`/missing array entries are modelled by `Option` lookups
  (`List.get?`); a JS crash on an `undefined` dereference is modelled by
  returning the state unchanged (or `none`) on the same branch.
* Unbounded `while` loops (the Dijkstra loop, hex A*) are modelled with
  explicit fuel; the Dijkstra loop needs at most one iteration per station so
  the wrapper passes that bound, reproducing the source behaviour exactly.
* `Math.random()` is modelled by an explicit oracle `rand : ℕ → ℚ`, one index
  per syntactic call site.
-/

namespace NewHex

open scoped ENNReal

/-- A 2D world point (JS `{x, y}`). -/
structure Point where
  x : ℝ
  y : ℝ

/-- A passenger (see `spawnPassenger` in passengers.js).  Fields that JS leaves
`undefined` until first use (`transferCount`, `isVIP`, `pointMultiplier`)
default to `0`/`false`, matching the `||`-style reads at their use sites. -/
structure Passenger where
  pid : ℚ
  destStation : ℕ
  destShape : ℕ
  spawnTime : ℚ
  startTime : ℚ
  waitTime : ℚ
  originStation : ℕ
  transferReadyAt : ℚ
  transferCount : ℕ
  isVIP : Bool
  pointMultiplier : ℚ
deriving DecidableEq

/-- A station (airport).  `id` is the JS `id` field (normally the index into
`game.stations`, but the embedding keeps the two notions separate exactly as
the source does). -/
structure Station where
  id : ℕ
  name : String
  x : ℝ
  y : ℝ
  shape : ℕ
  isFinal : Bool
  isInterchange : Bool
  mctMs : Option ℚ
  turnaroundMs : Option ℚ
  queue : List Passenger
  connections : List ℕ
  overflowTimer : ℚ
  isOvercrowded : Bool

/-- A line (route); `waypoints = none` models the JS `null`. -/
structure Line where
  id : ℕ
  stations : List ℕ
  colorIndex : ℕ
  isLoop : Bool
  trains : List ℕ
  waypoints : Option (List Point)
  totalLength : ℝ

/-- A train (plane).  JS initialises `lastStationVisited = -1`; the sentinel is
modelled as `none`. -/
structure Train where
  id : ℕ
  lineId : ℕ
  position : ℝ
  direction : ℤ
  passengers : List Passenger
  capacity : ℕ
  speed : ℚ
  lastStationVisited : Option ℕ
  stationCooldown : ℚ
  dwellRemaining : ℚ

/-- The `config.hexGrid` bundle. -/
structure HexGridConfig where
  size : ℝ
  bundleThreshold : Option ℝ
  corridorSpacing : Option ℝ
  terminalBubbleRadius : Option ℝ

/-- The configuration bundle (main.js `config`); only the fields the core
reads.  `lineColors` entries are opaque, only the list length and indexing
matter. -/
structure Config where
  trainSpeed : ℚ
  defaultMCT : ℚ
  mctMultiplier : ℚ
  defaultTurnaroundMs : ℚ
  maxWaitSeconds : ℚ
  missedConnectionMultiplier : ℚ
  lineColors : List String
  hexGrid : HexGridConfig
  hubAndSpokeMode : Bool
  hubSpokeBias : ℚ
  hubSpokeBoardingWaitMs : ℚ
  hubDesiredTrainBonus : Option ℤ
  hubLinePriorityBonus : ℚ

/-- The delivery-combo record (`game.combo`). -/
structure Combo where
  count : ℕ
  lastTime : ℚ
  multiplier : ℚ
deriving DecidableEq

/-- The shared world state.  `scorePopups` only counts the popups; their
rendering payload is cosmetic.  `combo = none` models the initially-undefined
`game.combo`. -/
structure Game where
  stations : List Station
  lines : List Line
  trains : List Train
  config : Config
  gameTime : ℚ
  day : ℕ
  gameOver : Bool
  gameOverReason : Option String
  score : ℚ
  combo : Option Combo
  trainsAvailable : ℕ
  carriages : ℕ
  tunnels : ℕ
  totalPassengers : ℕ
  scorePopups : ℕ
  finalDeliveries : ℕ
  totalFinalDeliveryTime : ℚ

/-- main.js `endGame(reason)`: records the terminal state (the DOM/HUD work is
out of core scope). -/
def Game.endGame (g : Game) (reason : String) : Game :=
  { g with gameOver := true, gameOverReason := some reason }

/-- Replace station `i` (JS mutates the aliased array element). -/
def setStation (g : Game) (i : ℕ) (s : Station) : Game :=
  { g with stations := g.stations.set i s }

/-- Replace train `i`. -/
def setTrain (g : Game) (i : ℕ) (t : Train) : Game :=
  { g with trains := g.trains.set i t }

/-- Replace line `i`. -/
def setLine (g : Game) (i : ℕ) (l : Line) : Game :=
  { g with lines := g.lines.set i l }

/-- JS `x || d` for numbers (`0` is falsy; NaN is outside the model). -/
def orDefault (x d : ℚ) : ℚ := if x = 0 then d else x

/-- trains.js lines 122–126: dwell time computed on arrival.
`baseTurn = station.turnaroundMs ?? (config.defaultTurnaroundMs || 600)`,
scaled by the early-game factor (days 1–3), the overcrowding factor and the
interchange factor. -/
def dwellMs (turnaroundMs : Option ℚ) (defaultTurnaroundMs : ℚ) (day : ℕ)
    (overcrowded interchange : Bool) : ℚ :=
  let baseTurn := turnaroundMs.getD (orDefault defaultTurnaroundMs 600)
  let earlyFactor : ℚ := if day ≠ 0 ∧ day ≤ 3 then 0.8 else 1.0
  let crowdFactor : ℚ := if overcrowded then 0.8 else 1.0
  let typeFactor : ℚ := if interchange then 0.8 else 1.0
  baseTurn * earlyFactor * crowdFactor * typeFactor

/-- Distance between two stations (JS `Math.hypot(B.x-A.x, B.y-A.y)`). -/
noncomputable def stationDist (A B : Station) : ℝ :=
  Real.sqrt ((B.x - A.x) ^ 2 + (B.y - A.y) ^ 2)

/-- lines.js `pickAvailableColorIndex`: first color index unused by any line,
scanning from a rotating offset; if every color is used, cycle by line count. -/
def pickAvailableColorIndex (g : Game) : ℕ :=
  let used := g.lines.map (·.colorIndex)
  let total := g.config.lineColors.length
  let startOffset := g.lines.length % total
  match (List.range total).find? (fun i => !used.contains ((startOffset + i) % total)) with
  | some i => (startOffset + i) % total
  | none => g.lines.length % total

/-- lines.js `calculateLineLength`: sum of station-to-station distances.
A missing station would crash JS; it contributes `0` here (callers guard). -/
noncomputable def calculateLineLength (g : Game) (l : Line) : ℝ :=
  ((l.stations.zip l.stations.tail).map (fun ab =>
    match g.stations.get? ab.1, g.stations.get? ab.2 with
    | some A, some B => stationDist A B
    | _, _ => 0)).sum

/-- routing.js `buildStationGraph`, as an adjacency test: stations `a` and `b`
are adjacent iff some line lists them as a consecutive pair (either order). -/
def lineAdjacent (g : Game) (a b : ℕ) : Bool :=
  g.lines.any fun l =>
    (l.stations.zip l.stations.tail).any fun p =>
      (p.1 = a && p.2 = b) || (p.1 = b && p.2 = a)

/-- The neighbour list of `u` in the station graph.  The source materialises
the adjacency as insertion-ordered `Set`s; relaxations of distinct targets
commute, so enumerating by index is observationally identical. -/
def stationNeighbors (g : Game) (u : ℕ) : List ℕ :=
  (List.range g.stations.length).filter (fun v => lineAdjacent g u v)

/-- routing.js `edgeTimeMs`: station distance over the (clamped) configured
speed; `⊤` when a station is missing, mirroring the explicit `Infinity`. -/
noncomputable def edgeTimeMs (g : Game) (a b : ℕ) : ℝ≥0∞ :=
  match g.stations.get? a, g.stations.get? b with
  | some A, some B =>
      ENNReal.ofReal (stationDist A B / max 1e-6 ((orDefault g.config.trainSpeed 0.06 : ℚ) : ℝ))
  | _, _ => ⊤

/-- routing.js `nodeTransferMs` before the cast into `ℝ≥0∞`: zero at the
destination itself, otherwise the station's minimum-connection time times the
interchange discount times the global multiplier. -/
def nodeTransferMsQ (g : Game) (node dest : ℕ) : ℚ :=
  if node = dest then 0
  else match g.stations.get? node with
    | none => 0
    | some s =>
      let base := s.mctMs.getD (orDefault g.config.defaultMCT 12000)
      let factor : ℚ := if s.isInterchange then 0.7 else 1.0
      let mult := orDefault g.config.mctMultiplier 1.0
      base * factor * mult

/-- `nodeTransferMs` as an extended nonnegative real (transfer times are
nonnegative in every reachable configuration; see the claim hypotheses). -/
noncomputable def nodeTransferMs (g : Game) (node dest : ℕ) : ℝ≥0∞ :=
  ENNReal.ofReal ((nodeTransferMsQ g node dest : ℚ) : ℝ)

/-- The mutable Dijkstra state of routing.js `computeETAs`. -/
structure ETAState where
  eta : ℕ → ℝ≥0∞
  visited : ℕ → Bool

/-- One comparison of the argmin scan of routing.js lines 49–50 (`best` is
always `eta u` for the current candidate `u`, so only the candidate is kept). -/
noncomputable def pickStep (visited : ℕ → Bool) (eta : ℕ → ℝ≥0∞)
    (acc : Option ℕ) (i : ℕ) : Option ℕ :=
  match acc with
  | none => if visited i = false ∧ eta i < ⊤ then some i else none
  | some u => if visited i = false ∧ eta i < eta u then some i else some u

/-- The argmin scan of routing.js lines 49–50: first unvisited index attaining
the least finite tentative ETA; `none` when every unvisited entry is `∞`. -/
noncomputable def pickMin (N : ℕ) (visited : ℕ → Bool) (eta : ℕ → ℝ≥0∞) : Option ℕ :=
  (List.range N).foldl (pickStep visited eta) none

/-- The relaxation of routing.js lines 53–57 over a neighbour list:
`alt = edgeTime(v,u) + transfer(u,dest) + eta(u)`, written if it improves. -/
noncomputable def relaxList (g : Game) (dest u : ℕ) :
    List ℕ → (ℕ → ℝ≥0∞) → ℕ → ℝ≥0∞
  | [], eta => eta
  | v :: rest, eta =>
      let alt := edgeTimeMs g v u + nodeTransferMs g u dest + eta u
      relaxList g dest u rest (fun x => if x = v ∧ alt < eta v then alt else eta x)

/-- One iteration of the `for (;;)` loop: pick, mark visited, relax. -/
noncomputable def dijkstraStep (g : Game) (dest N : ℕ) (st : ETAState) : Option ETAState :=
  match pickMin N st.visited st.eta with
  | none => none
  | some u =>
      some { visited := fun x => if x = u then true else st.visited x,
             eta := relaxList g dest u (stationNeighbors g u) st.eta }

/-- The fuel-bounded Dijkstra loop (each iteration visits a fresh station, so
`N` units of fuel reproduce the unbounded source loop). -/
noncomputable def dijkstraLoop (g : Game) (dest N : ℕ) : ℕ → ETAState → ETAState
  | 0, st => st
  | fuel + 1, st =>
      match dijkstraStep g dest N st with
      | none => st
      | some st' => dijkstraLoop g dest N fuel st'

/-- routing.js `computeETAs`: reverse Dijkstra seeded at the destination. -/
noncomputable def computeETAs (g : Game) (dest : ℕ) : ℕ → ℝ≥0∞ :=
  (dijkstraLoop g dest g.stations.length g.stations.length
    { eta := fun i => if i = dest then 0 else ⊤, visited := fun _ => false }).eta

/-- routing.js `estimateETA`: recomputes the full table per call. -/
noncomputable def estimateETA (g : Game) (fromIdx destIdx : ℕ) : ℝ≥0∞ :=
  computeETAs g destIdx fromIdx

/-- routing.js `stepReducesETA` (the `+ 1` is the 1 ms strictness epsilon). -/
noncomputable def stepReducesETA (g : Game) (fromIdx viaIdx destIdx : ℕ) : Prop :=
  estimateETA g fromIdx destIdx ≠ ⊤ ∧ estimateETA g viaIdx destIdx ≠ ⊤ ∧
    edgeTimeMs g fromIdx viaIdx + estimateETA g viaIdx destIdx + 1 <
      estimateETA g fromIdx destIdx

/-- routing.js `neighborsOnLineFrom`: the line neighbours of the first
occurrence of `stationIdx` on the line. -/
def neighborsOnLineFrom (line : Line) (stationIdx : ℕ) : List ℕ :=
  match line.stations.findIdx? (· = stationIdx) with
  | none => []
  | some i =>
      (if 0 < i then [line.stations.getD (i - 1) 0] else []) ++
      (if i + 1 < line.stations.length then [line.stations.getD (i + 1) 0] else [])

/-- A path to `dest` recorded by its successor list: `IsPathTo g dest v l`
holds when starting at `v` and stepping through `l` along line adjacencies
ends at `dest`. -/
def IsPathTo (g : Game) (dest : ℕ) : ℕ → List ℕ → Prop
  | v, [] => v = dest
  | v, w :: l => lineAdjacent g v w = true ∧ IsPathTo g dest w l

/-- Cost of a path: each hop pays the edge time plus the transfer penalty at
the hop target (`nodeTransferMs` is zero exactly at the destination), so the
penalty is charged at every intermediate node and never at the origin. -/
noncomputable def pathCost (g : Game) (dest : ℕ) : ℕ → List ℕ → ℝ≥0∞
  | _, [] => 0
  | v, w :: l => edgeTimeMs g v w + nodeTransferMs g w dest + pathCost g dest w l

/-- The specification value of claim C1: the infimum, over all paths from `v`
to `dest` in the line-induced graph, of the summed edge times and intermediate
transfer penalties (`⊤` when no path exists). -/
noncomputable def etaSpec (g : Game) (dest v : ℕ) : ℝ≥0∞ :=
  ⨅ l : { l : List ℕ // IsPathTo g dest v l }, pathCost g dest v l.1

/-- The loop invariant of the reverse Dijkstra in routing.js `computeETAs`:
visited entries are exact, every entry is an upper bound of the spec value,
each visited node's in-range neighbours have been relaxed through it, the
destination entry is pinned at zero, and out-of-range entries stay infinite. -/
def DijkstraInv (g : Game) (dest : ℕ) (st : ETAState) : Prop :=
  (∀ u, st.visited u = true → st.eta u = etaSpec g dest u) ∧
  (∀ v, etaSpec g dest v ≤ st.eta v) ∧
  (∀ u v, st.visited u = true → lineAdjacent g v u = true →
    v < g.stations.length →
    st.eta v ≤ edgeTimeMs g v u + nodeTransferMs g u dest + st.eta u) ∧
  st.eta dest = 0 ∧
  (∀ v, g.stations.length ≤ v → st.eta v = ⊤)

/-- trains.js `calculateLineDemand`: 2 points per queued passenger whose
destination is on the line, 1 point when a connecting line reaches it. -/
def calculateLineDemand (g : Game) (line : Line) : ℕ :=
  (line.stations.map fun stationId =>
    match g.stations.get? stationId with
    | none => 0
    | some station =>
        (station.queue.map fun passenger =>
          if line.stations.contains passenger.destStation then 2
          else
            let canTransfer := line.stations.any fun sid =>
              match g.stations.get? sid with
              | some transferStation => transferStation.connections.any fun otherLineId =>
                  match g.lines.get? otherLineId with
                  | some otherLine => otherLine.stations.contains passenger.destStation
                  | none => false
              | none => false
            if canTransfer then 1 else 0).sum).sum

/-- trains.js `createTrain`. -/
def createTrain (g : Game) (lineId : ℕ) : Option Train × Game :=
  match g.lines.get? lineId with
  | none => (none, g)
  | some line =>
    if line.stations.length < 2 then (none, g)
    else
      let train : Train :=
        { id := g.trains.length, lineId := lineId, position := 0.0, direction := 1,
          passengers := [], capacity := 10 + g.carriages,
          speed := g.config.trainSpeed * (if g.day ≠ 0 ∧ g.day ≤ 2 then 1.15 else 1.0),
          lastStationVisited := none, stationCooldown := 0, dwellRemaining := 0 }
      let g := setLine g lineId { line with trains := line.trains ++ [train.id] }
      (some train, { g with trains := g.trains ++ [train] })

/-- Whether a line touches a hub-class station (`isInterchange || isFinal`);
the test appears verbatim in `optimizeTrainAllocation` (`connectsHub`) and in
`shouldBoardLineHere` (`lineHasHub`). -/
def lineTouchesHub (g : Game) (line : Line) : Bool :=
  line.stations.any fun si =>
    match g.stations.get? si with
    | some st => st.isInterchange || st.isFinal
    | none => false

/-- The per-line record built by `optimizeTrainAllocation`. -/
structure LineStat where
  line : Line
  currentTrains : ℕ
  desiredTrains : ℤ
  deficit : ℤ
  priority : ℝ

/-- The per-line statistics of trains.js lines 302–341. -/
noncomputable def lineStatOf (g : Game) (line : Line) : LineStat :=
  let length := line.totalLength
  let stationCount := line.stations.length
  let passengerDemand := calculateLineDemand g line
  let connectsHub := lineTouchesHub g line
  let baseTrainsForLength : ℤ := max 1 ⌈length / 350⌉
  let demandTrains : ℤ := ⌈(passengerDemand : ℚ) / 10⌉
  let stationTrains : ℤ := max 1 ⌈(stationCount : ℚ) / 3⌉
  let earlyMax : ℤ := if g.day ≠ 0 ∧ g.day ≤ 3 then 5 else 4
  let maxTrains : ℤ := min earlyMax (max 2 ⌈(stationCount : ℚ) / 2⌉)
  let desiredRaw0 : ℤ := max baseTrainsForLength stationTrains + demandTrains
  let desiredRaw : ℤ :=
    if g.config.hubAndSpokeMode ∧ connectsHub then
      desiredRaw0 + g.config.hubDesiredTrainBonus.getD 1
    else desiredRaw0
  let desiredTrains : ℤ := max 1 (min desiredRaw maxTrains)
  let zeroTrainBoost : ℝ := if line.trains.length = 0 then 100000 else 0
  { line := line, currentTrains := line.trains.length, desiredTrains := desiredTrains,
    deficit := max 0 (desiredTrains - line.trains.length),
    priority := zeroTrainBoost + length + (passengerDemand : ℝ) * 50 +
      (if connectsHub then ((orDefault g.config.hubLinePriorityBonus 200 : ℚ) : ℝ) else 0) }

/-- Stable descending insertion (JS `Array.prototype.sort` is stable). -/
noncomputable def insertStatDesc (x : LineStat) : List LineStat → List LineStat
  | [] => [x]
  | y :: rest => if x.priority ≤ y.priority then y :: insertStatDesc x rest else x :: y :: rest

/-- Stable sort by priority descending. -/
noncomputable def sortStatsDesc (l : List LineStat) : List LineStat :=
  l.foldl (fun acc x => insertStatDesc x acc) []

/-- The inner allocation `for` of `optimizeTrainAllocation`: hand out up to
`count` trains to line `lineId`, decrementing the pool on each success. -/
def allocateToLine (g : Game) (lineId : ℕ) : ℕ → Game
  | 0 => g
  | count + 1 =>
      if g.trainsAvailable = 0 then g
      else
        match createTrain g lineId with
        | (some _, g') =>
            allocateToLine { g' with trainsAvailable := g'.trainsAvailable - 1 } lineId count
        | (none, g') => allocateToLine g' lineId count

/-- trains.js `optimizeTrainAllocation`: score every line, sort by priority
descending, fill deficits from the shared pool. -/
noncomputable def optimizeTrainAllocation (g : Game) : Game :=
  if g.trainsAvailable = 0 then g
  else
    let lineStats := g.lines.map (lineStatOf g)
    let sorted := sortStatsDesc lineStats
    sorted.foldl (fun g stats =>
      if g.trainsAvailable = 0 then g
      else if stats.deficit ≤ 0 then g
      else allocateToLine g stats.line.id (min stats.deficit.toNat g.trainsAvailable)) g

/-- lines.js `createLine`: rejects fewer than two stations, assigns a colour,
registers connections and triggers a fleet-allocation pass. -/
noncomputable def createLine (g : Game) (stations : List ℕ) (colorIndex : Option ℕ) :
    Option Line × Game :=
  if stations.length < 2 then (none, g)
  else
    let finalColorIndex := colorIndex.getD (pickAvailableColorIndex g)
    let line0 : Line :=
      { id := g.lines.length, stations := stations, colorIndex := finalColorIndex,
        isLoop := false, trains := [], waypoints := none, totalLength := 0 }
    let line := { line0 with totalLength := calculateLineLength g line0 }
    let g1 := { g with lines := g.lines ++ [line] }
    let g2 := stations.foldl (fun g idx =>
      match g.stations.get? idx with
      | some s =>
          if s.connections.contains line.id then g
          else setStation g idx { s with connections := s.connections ++ [line.id] }
      | none => g) g1
    (some line, optimizeTrainAllocation g2)

/-- The dynamic station capacity shared by `spawnPassenger` (passengers.js
lines 398–407) and the overcrowding sweep (lines 466–470). -/
def dynamicCapQ (day : ℕ) (s : Station) : ℤ :=
  let baseCap : ℚ := if s.isFinal then 14 else if s.isInterchange then 11 else 9
  let boost : ℚ :=
    if day ≤ 2 then 2.0 else if day = 3 then 1.6 else if day = 4 then 1.3 else 1.1
  round (baseCap * boost)

/-- JS `l[Math.floor(Math.random()*l.length)]`; an out-of-range draw would
yield `undefined` and crash the caller, modelled as `none`. -/
def pickByRand {α : Type} (l : List α) (x : ℚ) : Option α :=
  let i : ℤ := ⌊x * l.length⌋
  if 0 ≤ i ∧ i < l.length then l.get? i.toNat else none

/-- passengers.js `spawnPassenger`: pick an origin away from near-capacity
stations, then a destination biased to finals and hubs; every destination pool
is filtered by `s.id !== originIndex`. -/
def spawnPassenger (g : Game) (rand : ℕ → ℚ) : Option (Passenger × Game) :=
  if g.gameOver then none
  else if g.stations.length < 2 then none
  else
    let candidates := g.stations.enum
    let origins0 := candidates.filter fun is =>
      (is.2.queue.length : ℤ) < dynamicCapQ g.day is.2 - 1
    let origins := if origins0.isEmpty then candidates else origins0
    match pickByRand origins (rand 0) with
    | none => none
    | some (oi, origin) =>
      let originIndex := origin.id
      let finals := g.stations.filter fun s => s.id ≠ originIndex ∧ s.isFinal
      let others := g.stations.filter fun s => s.id ≠ originIndex ∧ ¬s.isFinal
      let destPick : Option Station :=
        if finals.length > 0 then
          let finalBias : ℚ := if g.day ≤ 3 then 0.45 else 0.6
          if rand 1 < finalBias ∨ others.length = 0 then
            pickByRand finals (rand 2)
          else
            let interchanges := others.filter (·.isInterchange)
            let bias := orDefault (orDefault g.config.hubSpokeBias
              (if g.config.hubAndSpokeMode then 1.2 else 1)) 1
            let baseP : ℚ := 0.7
            let boosted := max 0.7 (min 0.97 (baseP + 0.2 * (bias - 1)))
            let pickHub := interchanges.length > 0 ∧
              rand 3 < (if g.config.hubAndSpokeMode then boosted else baseP)
            if pickHub then pickByRand interchanges (rand 4)
            else pickByRand others (rand 4)
        else if others.length = 0 then none
        else pickByRand others (rand 5)
      match destPick with
      | none => none
      | some destStation =>
        let now := g.gameTime
        let passenger : Passenger :=
          { pid := rand 6, destStation := destStation.id, destShape := destStation.shape,
            spawnTime := now, startTime := now, waitTime := 0,
            originStation := originIndex, transferReadyAt := now,
            transferCount := 0, isVIP := false, pointMultiplier := 0 }
        let g := setStation g oi { origin with queue := origin.queue ++ [passenger] }
        some (passenger, { g with totalPassengers := g.totalPassengers + 1 })

/-- passengers.js `shouldBoardLineHere`: the boarding cascade.  Each satisfied
rule returns `true`, so the cascade is the disjunction of its rules; the only
early `false` exit is the empty-neighbour check after rule 1. -/
noncomputable def shouldBoardLineHere (g : Game) (line : Line) (stationIdx : ℕ)
    (passenger : Passenger) : Prop :=
  2 ≤ line.stations.length ∧
  (let destStationIdx := passenger.destStation
   -- PRIORITY 1: destination directly on this line
   line.stations.contains destStationIdx = true ∨
   (let neigh := neighborsOnLineFrom line stationIdx
    neigh ≠ [] ∧
    -- PRIORITY 2: ETA improvement via a line neighbour
    ((∃ v ∈ neigh, stepReducesETA g stationIdx v destStationIdx) ∨
     -- PRIORITY 3: a neighbour's other connection reaches the destination
     (∃ neighborIdx ∈ neigh, ∃ ns, g.stations.get? neighborIdx = some ns ∧
        ∃ otherLineId ∈ ns.connections, otherLineId ≠ line.id ∧
          ∃ ol, g.lines.get? otherLineId = some ol ∧
            ol.stations.contains destStationIdx = true) ∨
     -- EARLY RELIEF: crowded station and the line touches a hub
     (let crowd := ((g.stations.get? stationIdx).map (·.queue.length)).getD 0
      ((g.day ≤ 2 ∧ 4 ≤ crowd) ∨ 6 ≤ crowd) ∧ lineTouchesHub g line = true) ∨
     -- HUB-AND-SPOKE: no finite ETA yet, line touches a hub, waited past bias threshold
     (g.config.hubAndSpokeMode = true ∧
      estimateETA g stationIdx destStationIdx = ⊤ ∧ lineTouchesHub g line = true ∧
      (let waited := g.gameTime - orDefault passenger.spawnTime g.gameTime
       let waitMs := orDefault g.config.hubSpokeBoardingWaitMs 10000
       let bias := orDefault g.config.hubSpokeBias 1
       waited > max 3000 ((round (waitMs / max 1 bias) : ℤ) : ℚ))) ∨
     -- PRIORITY 4: long personal wait and the line touches a hub/final
     ((g.stations.get? stationIdx).isSome = true ∧
      g.gameTime - passenger.spawnTime > (if g.day ≤ 2 then 20000 else 30000) ∧
      lineTouchesHub g line = true) ∨
     -- PRIORITY 5: emergency boarding after extreme wait
     ((g.stations.get? stationIdx).isSome = true ∧
      g.gameTime - passenger.spawnTime > (if g.day ≤ 2 then 45000 else 60000)))))

/-- Accumulator for the disembark loop of `handleStationArrival` (trains.js
lines 145–239): retained passengers, transfers pushed back to the station
queue, scoring and combo state. -/
structure ArrivalAcc where
  remaining : List Passenger
  queueAdds : List Passenger
  score : ℚ
  combo : Combo
  dropped : ℕ
  popups : ℕ
  finalDeliveries : ℕ
  totalFinalDeliveryTime : ℚ

/-- One passenger of the disembark loop: deliver (scored, with combo and
final-destination bonuses), transfer back to the queue, or stay on board. -/
def disembarkOne (g : Game) (line : Line) (station : Station) (now : ℚ)
    (acc : ArrivalAcc) (p : Passenger) : ArrivalAcc :=
  if p.destStation = station.id then
    let combo := acc.combo
    let combo : Combo :=
      if now - combo.lastTime < 5000 then
        let c := combo.count + 1
        { count := c, lastTime := combo.lastTime, multiplier := min 3 (1 + (c : ℚ) * 0.5) }
      else { count := 0, lastTime := combo.lastTime, multiplier := 1 }
    let combo := { combo with lastTime := now }
    let destStation := g.stations.get? p.destStation
    let travelTime := now - p.spawnTime
    let isFinalDest := (destStation.map (·.isFinal)).getD false
    let points : ℚ :=
      if isFinalDest then
        5 + (if travelTime < 30000 then 3 else if travelTime < 60000 then 1 else 0) +
          (if 3 ≤ p.transferCount + 1 then 2 else 0)
      else if station.isInterchange then 2 else 1
    let points : ℚ :=
      if p.isVIP ∧ p.pointMultiplier ≠ 0 then ((⌊points * p.pointMultiplier⌋ : ℤ) : ℚ)
      else points
    let points : ℚ :=
      if 1 < combo.multiplier then ((⌊points * combo.multiplier⌋ : ℤ) : ℚ) else points
    { acc with
      combo := combo
      score := acc.score + points
      dropped := acc.dropped + 1
      popups := acc.popups + 1
      finalDeliveries := acc.finalDeliveries + (if isFinalDest then 1 else 0)
      totalFinalDeliveryTime :=
        acc.totalFinalDeliveryTime + (if isFinalDest then travelTime else 0) }
  else if ¬ line.stations.contains p.destStation then
    let mctBase := station.mctMs.getD (orDefault g.config.defaultMCT 12000)
    let mctFactor : ℚ :=
      if g.day ≠ 0 ∧ g.day ≤ 2 then 0.7 else if g.day = 3 then 0.9 else 1.0
    let mctMult := orDefault g.config.mctMultiplier 1.0
    let p' := { p with
      transferReadyAt := now + ((round (mctBase * mctFactor * mctMult) : ℤ) : ℚ)
      transferCount := p.transferCount + 1 }
    { acc with queueAdds := acc.queueAdds ++ [p'] }
  else { acc with remaining := acc.remaining ++ [p] }

/-- trains.js line 144: `if (!game.combo) game.combo = {count: 0, lastTime: 0, multiplier: 1}`. -/
def ensureCombo (g : Game) : Game :=
  if g.combo = none then { g with combo := some ⟨0, 0, 1⟩ } else g

open Classical in
/-- One passenger of the boarding loop of `handleStationArrival` (trains.js
lines 259–274): state is `(keep, boarded, picked)`; a passenger boards only
when capacity remains, its transfer embargo has passed and the boarding
cascade accepts it. -/
noncomputable def boardOne (g : Game) (line : Line) (stationId : ℕ) (now : ℚ)
    (capacity : ℤ) (b : List Passenger × List Passenger × ℕ) (p : Passenger) :
    List Passenger × List Passenger × ℕ :=
  if capacity ≤ (b.2.2 : ℤ) then (b.1 ++ [p], b.2.1, b.2.2)
  else if now < p.transferReadyAt then (b.1 ++ [p], b.2.1, b.2.2)
  else if shouldBoardLineHere g line stationId p then (b.1, b.2.1 ++ [p], b.2.2 + 1)
  else (b.1 ++ [p], b.2.1, b.2.2)

open Classical in
/-- trains.js `handleStationArrival`: disembark/transfer, then board from the
station queue limited by remaining capacity; queue order of unselected
passengers is preserved. -/
noncomputable def handleStationArrival (g : Game) (ti stationIndex : ℕ) : Game :=
  match g.trains.get? ti with
  | none => g
  | some train =>
    let now := g.gameTime
    match g.lines.get? train.lineId with
    | none => g
    | some line =>
      match g.stations.get? stationIndex with
      | none => g
      | some station =>
        let g := ensureCombo g
        let combo0 := g.combo.getD ⟨0, 0, 1⟩
        let acc0 : ArrivalAcc :=
          ⟨[], [], g.score, combo0, 0, 0, g.finalDeliveries, g.totalFinalDeliveryTime⟩
        let acc := train.passengers.foldl (disembarkOne g line station now) acc0
        let newQueue := station.queue ++ acc.queueAdds
        let train1 := { train with passengers := acc.remaining }
        let g1 := setTrain g ti train1
        let g1 := setStation g1 stationIndex { station with queue := newQueue }
        let g1 := { g1 with
          score := acc.score
          combo := some acc.combo
          scorePopups := g1.scorePopups + acc.popups
          finalDeliveries := acc.finalDeliveries
          totalFinalDeliveryTime := acc.totalFinalDeliveryTime }
        let capacity : ℤ := (train1.capacity : ℤ) - acc.remaining.length
        if capacity ≤ 0 then g1
        else
          let bacc := newQueue.foldl (boardOne g1 line station.id now capacity) ([], [], 0)
          let g2 := setTrain g1 ti { train1 with passengers := acc.remaining ++ bacc.2.1 }
          setStation g2 stationIndex { station with queue := bacc.1 }

/-- The cumulative normalized station positions of trains.js lines 113–114:
partial sums of inter-station distances divided by `max(total, 1e-6)`, with a
leading `0`. -/
noncomputable def lineNormPositions (g : Game) (line : Line) : List ℝ :=
  let ds := (line.stations.zip line.stations.tail).map fun ab =>
    match g.stations.get? ab.1, g.stations.get? ab.2 with
    | some A, some B => stationDist A B
    | _, _ => 0
  let params := (ds.scanl (· + ·) 0).tail
  let total : ℝ := max ds.sum 1e-6
  0 :: params.map (· / total)

open Classical in
/-- trains.js `checkCrossing`: first station whose normalized position lies
strictly inside the travelled interval (direction-aware, scanning forwards for
`dir > 0` and backwards otherwise), not blocked by `lastStationVisited` or the
arrival cooldown.  Returns the index into `line.stations`. -/
noncomputable def findCrossing (norm : List ℝ) (stations : List ℕ)
    (lastVisited : Option ℕ) (cooldown : ℚ) (startPos endPos : ℝ) (dir : ℤ) :
    Option ℕ :=
  let eps : ℝ := 1e-4
  let ok : ℕ → Prop := fun i =>
    let sp := norm.getD i 0
    let sIdx := stations.getD i 0
    (if 0 < dir then startPos + eps < sp ∧ sp ≤ endPos + eps
     else sp < startPos - eps ∧ endPos - eps ≤ sp) ∧
    lastVisited ≠ some sIdx ∧ cooldown ≤ 0
  let idxs := List.range norm.length
  (if 0 < dir then idxs else idxs.reverse).find? fun i => decide (ok i)

/-- trains.js `arriveAtStationIdx` after the position snap: fire the arrival
side effects, stamp cooldown and dwell, reverse at the ends of non-loop
lines. -/
noncomputable def applyArrival (g : Game) (ti : ℕ) (line : Line) (idx : ℕ) : Game :=
  let stationIndex := line.stations.getD idx 0
  let g := handleStationArrival g ti stationIndex
  match g.trains.get? ti, g.stations.get? stationIndex with
  | some train, some station =>
      let train := { train with
        lastStationVisited := some stationIndex
        stationCooldown := 600
        dwellRemaining := dwellMs station.turnaroundMs g.config.defaultTurnaroundMs
          g.day station.isOvercrowded station.isInterchange }
      let train := if ¬line.isLoop ∧ (idx = 0 ∨ idx = line.stations.length - 1)
        then { train with direction := -train.direction } else train
      setTrain g ti train
  | _, _ => g

open Classical in
/-- The movement half of the per-train body of trains.js `updateTrains`:
endpoint guard, movement with direction-aware crossing detection, loop
wraparound and non-loop clamping.  `train` is the train after the cooldown
decrement. -/
noncomputable def moveTrain (g : Game) (ti : ℕ) (dt : ℚ) (train : Train)
    (line : Line) : Game :=
  let train :=
    if ¬line.isLoop then
      let epsGuard : ℝ := 1e-4
      if 1.0 - epsGuard ≤ train.position ∧ 0 < train.direction ∧
          train.stationCooldown ≤ 0 then
        { train with direction := -1, position := 1.0 - 2 * epsGuard }
      else if train.position ≤ epsGuard ∧ train.direction < 0 ∧
          train.stationCooldown ≤ 0 then
        { train with direction := 1, position := 2 * epsGuard }
      else train
    else train
  let safeLen : ℝ := max 100 line.totalLength
  let step : ℝ := ((train.speed * dt : ℚ) : ℝ) / safeLen
  let prevPos := train.position
  let proposed := prevPos + step * (train.direction : ℝ)
  let norm := lineNormPositions g line
  let eps : ℝ := 1e-4
  let cross := fun (s e : ℝ) => findCrossing norm line.stations
    train.lastStationVisited train.stationCooldown s e train.direction
  let snapAndArrive := fun (i : ℕ) =>
    applyArrival (setTrain g ti { train with position := norm.getD i 0 }) ti line i
  if line.isLoop ∧ 1.0 < proposed then
    let wrapped := proposed - 1.0
    match cross prevPos 1.0 with
    | some i => snapAndArrive i
    | none =>
      match cross 0.0 wrapped with
      | some i => snapAndArrive i
      | none => setTrain g ti { train with position := wrapped }
  else if line.isLoop ∧ proposed < 0.0 then
    let wrapped := proposed + 1.0
    match cross prevPos 0.0 with
    | some i => snapAndArrive i
    | none =>
      match cross 1.0 wrapped with
      | some i => snapAndArrive i
      | none => setTrain g ti { train with position := wrapped }
  else
    match cross prevPos proposed with
    | some i => snapAndArrive i
    | none =>
      if line.isLoop then
        let p1 := proposed
        let p2 := if 1.0 ≤ p1 then p1 - 1.0 else if p1 < 0.0 then p1 + 1.0 else p1
        setTrain g ti { train with position := p2 }
      else
        let pos := max 0 (min 1 proposed)
        if 1.0 - eps ≤ pos then
          let lastIdx := line.stations.getD (line.stations.length - 1) 0
          if train.lastStationVisited ≠ some lastIdx ∧ train.stationCooldown ≤ 0 then
            applyArrival (setTrain g ti { train with position := pos }) ti line
              (line.stations.length - 1)
          else setTrain g ti { train with position := 1.0, direction := -1 }
        else if pos ≤ 0.0 + eps then
          let firstIdx := line.stations.getD 0 0
          if train.lastStationVisited ≠ some firstIdx ∧ train.stationCooldown ≤ 0 then
            applyArrival (setTrain g ti { train with position := pos }) ti line 0
          else setTrain g ti { train with position := 0.0, direction := 1 }
        else setTrain g ti { train with position := pos }

open Classical in
/-- The per-train body of trains.js `updateTrains`: cooldown/dwell handling,
then the movement half (`moveTrain`). -/
noncomputable def updateOneTrain (g : Game) (ti : ℕ) (dt : ℚ) : Game :=
  match g.trains.get? ti with
  | none => g
  | some train0 =>
    match g.lines.get? train0.lineId with
    | none => g
    | some line =>
      if line.stations.length < 2 then g
      else if ¬ ∀ si ∈ line.stations, (g.stations.get? si).isSome then g
      else
        let train := if 0 < train0.stationCooldown
          then { train0 with stationCooldown := train0.stationCooldown - dt } else train0
        if 0 < train.dwellRemaining then
          let train := { train with dwellRemaining := train.dwellRemaining - dt }
          let train :=
            if train.dwellRemaining ≤ 0 then
              let train := { train with dwellRemaining := 0 }
              let epsPos : ℝ := 1e-3
              let train :=
                if ¬line.isLoop then
                  if 1.0 - epsPos ≤ train.position then
                    { train with position := 1.0 - 2 * epsPos }
                  else if train.position ≤ epsPos then { train with position := 2 * epsPos }
                  else train
                else train
              { train with stationCooldown := 0 }
            else train
          setTrain g ti train
        else moveTrain g ti dt train line

/-- trains.js `updateTrains`: the per-tick pass over every train. -/
noncomputable def updateTrains (g : Game) (dt : ℚ) : Game :=
  (List.range g.trains.length).foldl (fun g i => updateOneTrain g i dt) g

/-- One relocation of passengers.js `handleEmergencyOvercrowding` ACTION 1:
remove the passenger from the station queue (JS `indexOf`/`splice`; object
identity becomes first-value match) and append it, with a refreshed transfer
time, to a randomly chosen alternative station. -/
def emergencyMovePassenger (g : Game) (si : ℕ) (p : Passenger) (altsIdx : List ℕ)
    (draw : ℚ) : Game :=
  match pickByRand altsIdx draw with
  | none => g
  | some ai =>
    match g.stations.get? si with
    | none => g
    | some station =>
      match station.queue.findIdx? (· = p) with
      | none => g
      | some j =>
        let g := setStation g si { station with queue := station.queue.eraseIdx j }
        match g.stations.get? ai with
        | none => g
        | some alt =>
          let p' := { p with transferReadyAt := g.gameTime +
            ((round (alt.mctMs.getD 8000 * orDefault g.config.mctMultiplier 1) : ℤ) : ℚ) }
          setStation g ai { alt with queue := alt.queue ++ [p'] }

/-- passengers.js `handleEmergencyOvercrowding`: relocate up to two long-stuck
passengers to less-crowded connected stations, and express-deliver queued
passengers already at their own overcrowded final destination. -/
def handleEmergencyOvercrowding (g : Game) (si : ℕ) (rand : ℕ → ℚ) (rc : ℕ) :
    Game × ℕ :=
  match g.stations.get? si with
  | none => (g, rc)
  | some station =>
    if station.queue.isEmpty then (g, rc)
    else
      let now := g.gameTime
      let criticalWaitTime : ℚ := 80000
      let severeOvercrowding := 12 ≤ station.queue.length
      let stuckPassengers := station.queue.filter fun p =>
        decide (criticalWaitTime < now - p.spawnTime)
      if 0 < stuckPassengers.length ∨ severeOvercrowding then
        let gr : Game × ℕ :=
          if 2 ≤ stuckPassengers.length ∨ (severeOvercrowding ∧ 14 < station.queue.length) then
            let altsIdx := ((g.stations.enum.filter fun js =>
              js.1 ≠ si ∧ js.2.queue.length < 4 ∧ js.2.connections ≠ []).map (·.1))
            if altsIdx ≠ [] then
              let candidates := if 0 < stuckPassengers.length then stuckPassengers
                                else station.queue.take 2
              (candidates.take 2).foldl (fun (gr : Game × ℕ) p =>
                (emergencyMovePassenger gr.1 si p altsIdx (rand gr.2), gr.2 + 1)) (g, rc)
            else (g, rc)
          else (g, rc)
        let g := gr.1
        match g.stations.get? si with
        | none => gr
        | some st2 =>
          if st2.isFinal ∧ severeOvercrowding then
            let destinationPassengers := st2.queue.filter fun p => p.destStation = st2.id
            if 0 < destinationPassengers.length then
              let g := { g with
                score := g.score + 5 * destinationPassengers.length
                scorePopups := g.scorePopups + destinationPassengers.length }
              (setStation g si
                { st2 with queue := st2.queue.filter fun p => ¬ p.destStation = st2.id },
               gr.2)
            else gr
          else gr
      else (g, rc)

open Classical in
/-- The stranded/missed-connection scan of passengers.js lines 483–503: an
overdue passenger is silently dropped when
`¬(connections.length > 0 ∧ estimateETA finite)`; when that conjunction holds
and the wait also exceeds `maxWaitSeconds · missedConnectionMultiplier`, the
game ends with a missed-connection reason (the source's `return` inside
`forEach` only skips to the next passenger, and the splice still runs). -/
noncomputable def strandedScan (g : Game) (si : ℕ) (rc : ℕ) : Game × Bool × ℕ :=
  match g.stations.get? si with
  | none => (g, false, rc)
  | some st =>
    let maxWaitMs := g.config.maxWaitSeconds * 1000
    let missMult := orDefault g.config.missedConnectionMultiplier 1.5
    let canBeServed : Passenger → Prop := fun p =>
      0 < st.connections.length ∧ estimateETA g st.id p.destStation ≠ ⊤
    let overdue : Passenger → Prop := fun p => maxWaitMs < p.waitTime
    let misses := st.queue.any fun p => decide (overdue p ∧ canBeServed p ∧
      g.config.maxWaitSeconds * missMult * 1000 < p.waitTime)
    let g := if misses
      then g.endGame ("A passenger missed their connection at " ++ st.name ++ "!") else g
    let newQueue := st.queue.filter fun p => decide (¬(overdue p ∧ ¬canBeServed p))
    (setStation g si { st with queue := newQueue }, false, rc)

/-- The per-station body of `updatePassengersAndCheckOvercrowding`: refresh
wait times, run the emergency pass, then the overflow check (whose failure
exits the whole sweep — the `Bool` result), then the stranded scan. -/
noncomputable def sweepStation (g : Game) (si : ℕ) (dt : ℚ) (rand : ℕ → ℚ) (rc : ℕ) :
    Game × Bool × ℕ :=
  match g.stations.get? si with
  | none => (g, false, rc)
  | some st0 =>
    let st0 := { st0 with queue := st0.queue.map fun p =>
      { p with waitTime := g.gameTime - p.spawnTime } }
    let g := setStation g si st0
    let grc := handleEmergencyOvercrowding g si rand rc
    let g := grc.1
    match g.stations.get? si with
    | none => (g, false, grc.2)
    | some st =>
      let cap := dynamicCapQ g.day st
      if cap ≤ (st.queue.length : ℤ) then
        let st := { st with overflowTimer := st.overflowTimer + dt }
        let overflowFailMs : ℚ :=
          if g.day ≤ 2 then 60000 else if g.day = 3 then 55000
          else if g.day = 4 then 50000 else 45000
        if overflowFailMs < st.overflowTimer then
          ((setStation g si st).endGame (st.name ++ " airport became overcrowded!"),
           true, grc.2)
        else
          strandedScan (setStation g si { st with isOvercrowded := true }) si grc.2
      else
        strandedScan (setStation g si { st with overflowTimer := 0, isOvercrowded := false })
          si grc.2

/-- The station fold of `updatePassengersAndCheckOvercrowding`; an overflow
failure `return`s out of the whole sweep. -/
noncomputable def sweepGo (dt : ℚ) (rand : ℕ → ℚ) : List ℕ → Game → ℕ → Game
  | [], g, _ => g
  | i :: rest, g, rc =>
    match sweepStation g i dt rand rc with
    | (g', true, _) => g'
    | (g', false, rc') => sweepGo dt rand rest g' rc'

/-- passengers.js `updatePassengersAndCheckOvercrowding`. -/
noncomputable def updatePassengersAndCheckOvercrowding (g : Game) (dt : ℚ)
    (rand : ℕ → ℚ) : Game :=
  sweepGo dt rand (List.range g.stations.length) g 0

/-- A hex cube coordinate (hexgrid.js works with `{q, r, s}` records;
lattice points satisfy `q + r + s = 0`). -/
structure Cube where
  q : ℤ
  r : ℤ
  s : ℤ
deriving DecidableEq

/-- hexgrid.js `cubeToPixel` for the pointy-top grid. -/
noncomputable def cubeToPixel (c : Cube) (size : ℝ) : Point :=
  ⟨size * (1.5 * c.q), size * ((Real.sqrt 3 / 2) * c.q + Real.sqrt 3 * c.r)⟩

/-- hexgrid.js `roundCube`; JS `Math.round` rounds half towards `+∞`, exactly
Mathlib's `round`. -/
noncomputable def roundCube (q r s : ℝ) : Cube :=
  let rq : ℤ := round q
  let rr : ℤ := round r
  let rs : ℤ := round s
  let qd := |(rq : ℝ) - q|
  let rd := |(rr : ℝ) - r|
  let sd := |(rs : ℝ) - s|
  if rd < qd ∧ sd < qd then ⟨-rr - rs, rr, rs⟩
  else if sd < rd then ⟨rq, -rq - rs, rs⟩
  else ⟨rq, rr, -rq - rr⟩

/-- hexgrid.js `pixelToCube`. -/
noncomputable def pixelToCube (x y size : ℝ) : Cube :=
  let q := (2 / 3) * (x / size)
  let r := (-1 / 3) * (x / size) + (Real.sqrt 3 / 3) * (y / size)
  roundCube q r (-q - r)

/-- hexgrid.js `snapToHexVertex`. -/
noncomputable def snapToHexVertex (x y size : ℝ) : Point :=
  cubeToPixel (pixelToCube x y size) size

/-- hexgrid.js `getHexNeighbors`. -/
def getHexNeighbors (c : Cube) : List Cube :=
  [⟨c.q + 1, c.r - 1, c.s⟩, ⟨c.q + 1, c.r, c.s - 1⟩, ⟨c.q, c.r + 1, c.s - 1⟩,
   ⟨c.q - 1, c.r + 1, c.s⟩, ⟨c.q - 1, c.r, c.s + 1⟩, ⟨c.q, c.r - 1, c.s + 1⟩]

/-- hexgrid.js `hexDistance`: `(|Δq| + |Δr| + |Δs|) / 2`. -/
def hexDistance (a b : Cube) : ℚ :=
  (((a.q - b.q).natAbs + (a.r - b.r).natAbs + (a.s - b.s).natAbs : ℕ) : ℚ) / 2

/-- The mutable A* state of hexgrid.js `hexAStar`: the open list and the
`came`/`g`/`f` maps (`none` = key absent, read back as `Infinity`). -/
structure AStarState where
  openList : List Cube
  came : Cube → Option Cube
  gmap : Cube → Option ℕ
  fmap : Cube → Option ℚ

/-- A JS `map.get(k) ?? Infinity` read. -/
def optTop {α : Type} (o : Option α) : WithTop α := o.elim ⊤ (fun a => (a : WithTop α))

/-- The lowest-f-score scan of hexgrid.js lines 376–379 (first index of the
minimum; the JS loop starts at 1 with `idx = 0`, equivalent to starting the
fold at 0 since the strict comparison never moves off index 0 there). -/
def lowestFIdx (fm : Cube → Option ℚ) (l : List Cube) : ℕ :=
  (List.range l.length).foldl (fun idx i =>
    if optTop (fm (l.getD i ⟨0, 0, 0⟩)) < optTop (fm (l.getD idx ⟨0, 0, 0⟩)) then i else idx) 0

/-- One neighbour relaxation of hexgrid.js lines 397–405: uniform edge cost 1,
`f = tentativeG + hexDistance(nb, goal)`, push to the open list when new. -/
def relaxNeighbor (goal current : Cube) (st : AStarState) (nb : Cube) : AStarState :=
  match st.gmap current with
  | none => st
  | some gc =>
    let tentativeG := gc + 1
    if (tentativeG : WithTop ℕ) < optTop (st.gmap nb) then
      { openList := if st.openList.contains nb then st.openList else st.openList ++ [nb]
        came := fun c => if c = nb then some current else st.came c
        gmap := fun c => if c = nb then some tentativeG else st.gmap c
        fmap := fun c =>
          if c = nb then some ((tentativeG : ℚ) + hexDistance nb goal) else st.fmap c }
    else st

/-- The path reconstruction of hexgrid.js lines 385–393 (`while (came.has)`),
fuelled; the caller passes the popped node's `g`-value, which bounds the
strictly-`g`-decreasing parent chain. -/
def reconPath (came : Cube → Option Cube) : ℕ → Cube → List Cube
  | 0, c => [c]
  | fuel + 1, c =>
    match came c with
    | none => [c]
    | some p => reconPath came fuel p ++ [c]

/-- Result of the A* `while` loop: a cube path, the empty-open-list fallback,
or fuel exhaustion (an artifact of modelling the unbounded loop). -/
inductive AStarOutcome where
  | found : List Cube → AStarOutcome
  | exhausted : AStarOutcome
  | fuelOut : AStarOutcome

/-- The A* `while` loop of hexgrid.js `hexAStar`: pop the lowest-f node, stop
within hex distance `< 1` of the goal, otherwise relax the six neighbours. -/
def hexAStarLoop (goal : Cube) : ℕ → AStarState → AStarOutcome
  | 0, _ => .fuelOut
  | fuel + 1, st =>
    if st.openList.isEmpty then .exhausted
    else
      let idx := lowestFIdx st.fmap st.openList
      let current := st.openList.getD idx ⟨0, 0, 0⟩
      let rest := st.openList.eraseIdx idx
      let st1 : AStarState := { st with openList := rest }
      if hexDistance current goal < 1 then
        .found (reconPath st1.came ((st1.gmap current).getD 0) current)
      else
        hexAStarLoop goal fuel ((getHexNeighbors current).foldl (relaxNeighbor goal current) st1)

/-- hexgrid.js `hexAStar`: `none` means the fuel ran out (the source loop
would still be running); `some` is a genuine return, including the
unreachable-lattice fallback `[startWorld, endWorld]`. -/
noncomputable def hexAStar (startW endW : Point) (size : ℝ) (fuel : ℕ) :
    Option (List Point) :=
  let start := pixelToCube startW.x startW.y size
  let goal := pixelToCube endW.x endW.y size
  let st0 : AStarState :=
    { openList := [start], came := fun _ => none
      gmap := fun c => if c = start then some 0 else none
      fmap := fun c => if c = start then some (hexDistance start goal) else none }
  match hexAStarLoop goal fuel st0 with
  | .found cubes => some (cubes.map (cubeToPixel · size))
  | .exhausted => some [startW, endW]
  | .fuelOut => none

/-- The consecutive-duplicate dropper of `createHexPath` (the accumulator loop
rewritten as the equivalent structural recursion: a dropped point's
predecessor stays the comparison anchor). -/
noncomputable def dedupConsecutive : List Point → List Point
  | [] => []
  | [p] => [p]
  | p :: q :: rest =>
    if p.x = q.x ∧ p.y = q.y then dedupConsecutive (p :: rest)
    else p :: dedupConsecutive (q :: rest)
termination_by l => l.length

/-- hexgrid.js `createHexPath`: snap both endpoints, run A*, drop consecutive
duplicates; `none` when the fuel ran out. -/
noncomputable def createHexPath (ax ay bx byv : ℝ) (size : ℝ) (fuel : ℕ) :
    Option (List Point) :=
  let start := snapToHexVertex ax ay size
  let endP := snapToHexVertex bx byv size
  (hexAStar start endP size fuel).map fun path =>
    if path.isEmpty then [start, endP] else dedupConsecutive path

/-- `createHexPath` with fuel exhaustion (never reached by the unbounded
source loop) degraded to the same two-point fallback as an exhausted open
list, for use in the waypoint-rebuild pipeline. -/
noncomputable def createHexPathTotal (ax ay bx byv size : ℝ) (fuel : ℕ) : List Point :=
  (createHexPath ax ay bx byv size fuel).getD
    [snapToHexVertex ax ay size, snapToHexVertex bx byv size]

/-- JS `x || d` on a real-valued expression (`0` is falsy). -/
noncomputable def orDefaultR (x d : ℝ) : ℝ := if x = 0 then d else x

/-- intersections.js `vlen` (`Math.hypot(x,y) || 1`). -/
noncomputable def vlen (v : Point) : ℝ :=
  orDefaultR (Real.sqrt (v.x ^ 2 + v.y ^ 2)) 1

/-- intersections.js `vnorm`. -/
noncomputable def vnorm (v : Point) : Point :=
  ⟨v.x / vlen v, v.y / vlen v⟩

/-- intersections.js `dot`. -/
def dotP (a b : Point) : ℝ := a.x * b.x + a.y * b.y

/-- intersections.js `segmentMid`. -/
noncomputable def segmentMid (A B : Point) : Point := ⟨(A.x + B.x) / 2, (A.y + B.y) / 2⟩

/-- intersections.js `perpendicular`. -/
def perpendicular (u : Point) : Point := ⟨-u.y, u.x⟩

/-- A record pushed by `findParallelSegments`. -/
structure ParallelHit where
  lineId : ℕ
  index : ℕ
  side : ℝ

/-- intersections.js `findParallelSegments`: segments of other lines whose
direction is within 30° (`|cos| ≥ threshold`) and whose midpoint is within the
bundle threshold perpendicular distance; `side = Math.sign(…) || 1`. -/
noncomputable def findParallelSegments (segStart segEnd : Point)
    (existingLines : List Line) (bundleThreshold angleCosThr : ℝ) : List ParallelHit :=
  let u := vnorm ⟨segEnd.x - segStart.x, segEnd.y - segStart.y⟩
  let n := perpendicular u
  let mid := segmentMid segStart segEnd
  existingLines.foldl (fun acc line =>
    match line.waypoints with
    | some pts =>
      if 2 ≤ pts.length then
        acc ++ ((List.range (pts.length - 1)).filterMap fun i =>
          let A := pts.getD i ⟨0, 0⟩
          let B := pts.getD (i + 1) ⟨0, 0⟩
          let v := vnorm ⟨B.x - A.x, B.y - A.y⟩
          let cosang := |dotP u v|
          if cosang < angleCosThr then none
          else
            let dvec : Point := ⟨(segmentMid A B).x - mid.x, (segmentMid A B).y - mid.y⟩
            let d := |dotP dvec n|
            if d ≤ bundleThreshold then
              some ⟨line.id, i,
                if 0 < dotP dvec n then 1 else if dotP dvec n < 0 then -1 else 1⟩
            else none)
      else acc
    | none => acc) []

/-- intersections.js `applyCorridorBundling`: offset each segment with
parallel nearby neighbours perpendicular by the corridor spacing, signed by
the majority side; a single greedy pass. -/
noncomputable def applyCorridorBundling (path : List Point) (g : Game)
    (currentLine : Line) : List Point :=
  if path.length < 2 then path
  else
    let bundleThreshold := g.config.hexGrid.bundleThreshold.getD 30
    let spacing := g.config.hexGrid.corridorSpacing.getD 15
    let angleCosThr := Real.cos (30 * Real.pi / 180)
    let existing := g.lines.filter fun l => l.id ≠ currentLine.id
    (List.range (path.length - 1)).foldl (fun out i =>
      let segStart := path.getD i ⟨0, 0⟩
      let segEnd := path.getD (i + 1) ⟨0, 0⟩
      let parallels := findParallelSegments segStart segEnd existing bundleThreshold angleCosThr
      if 0 < parallels.length then
        let avgSide := (parallels.map (·.side)).sum / parallels.length
        let side : ℝ := if 0 ≤ avgSide then 1 else -1
        let u := vnorm ⟨segEnd.x - segStart.x, segEnd.y - segStart.y⟩
        let n := perpendicular u
        let off := spacing * side
        let sPt : Point := ⟨segStart.x + n.x * off, segStart.y + n.y * off⟩
        let ePt : Point := ⟨segEnd.x + n.x * off, segEnd.y + n.y * off⟩
        out ++ [sPt] ++ (if i = path.length - 2 then [ePt] else [])
      else
        out ++ [segStart] ++ (if i = path.length - 2 then [segEnd] else [])) []

/-- JS `Math.atan2(y, x)`, via the complex argument (same `(-π, π]`
convention; signed zero is outside the model). -/
noncomputable def atan2 (y x : ℝ) : ℝ := Complex.arg ⟨x, y⟩

/-- hexgrid.js `snapAngleTo30`. -/
noncomputable def snapAngleTo30 (rad : ℝ) : ℝ :=
  let step := Real.pi / 6
  (round (rad / step) : ℤ) * step

/-- hexgrid.js `pointOnCircle`. -/
noncomputable def pointOnCircle (cx cy radius ang : ℝ) : Point :=
  ⟨cx + radius * Real.cos ang, cy + radius * Real.sin ang⟩

/-- hexgrid.js `applyTerminalBubbles`: insert an angle-snapped approach
waypoint next to each hub-class end station. -/
noncomputable def applyTerminalBubbles (path : List Point)
    (startStation endStation : Option Station) (g : Game) : List Point :=
  if path.length < 2 then path
  else
    let R := g.config.hexGrid.terminalBubbleRadius.getD 88
    let out := path
    let out :=
      match startStation with
      | some s0 =>
        if s0.isInterchange || s0.isFinal then
          let next := out.getD 1 ⟨0, 0⟩
          let san := snapAngleTo30 (atan2 (next.y - s0.y) (next.x - s0.x))
          let p := pointOnCircle s0.x s0.y R san
          out.take 1 ++ [p] ++ out.drop 1
        else out
      | none => out
    match endStation with
    | some e0 =>
      if e0.isInterchange || e0.isFinal then
        let prev := out.getD (out.length - 2) ⟨0, 0⟩
        let san := snapAngleTo30 (atan2 (e0.y - prev.y) (e0.x - prev.x))
        let p := pointOnCircle e0.x e0.y R san
        out.take (out.length - 1) ++ [p] ++ out.drop (out.length - 1)
      else out
    | none => out

/-- The per-pair segment assembly of `rebuildWaypointsForLine` (hex path per
consecutive station pair, terminal bubbles only at the true ends, duplicate
join points dropped); it reads only `g.stations` and `g.config`. -/
noncomputable def rebuildSegs (g : Game) (stations : List ℕ) (fuel : ℕ) : List Point :=
  (List.range (stations.length - 1)).foldl (fun pts i =>
    match g.stations.get? (stations.getD i 0),
          g.stations.get? (stations.getD (i + 1) 0) with
    | some A, some B =>
      let seg0 := createHexPathTotal A.x A.y B.x B.y g.config.hexGrid.size fuel
      let isFirst := i = 0
      let isLast := i = stations.length - 2
      let seg1 :=
        if isFirst ∨ isLast then
          applyTerminalBubbles seg0 (if isFirst then some A else none)
            (if isLast then some B else none) g
        else seg0
      let seg2 := if 0 < i then seg1.drop 1 else seg1
      pts ++ seg2
    | _, _ => pts) []

/-- lines.js `rebuildWaypointsForLine`, taking the index of the line in
`game.lines` (the source receives the aliased object).  `clearHexCache()`
clears a memo that this build's `createHexPath` never consults, so it has no
modelled effect; the hex A* fuel is threaded explicitly. -/
noncomputable def rebuildWaypointsForLine (g : Game) (li : ℕ) (fuel : ℕ) : Game :=
  match g.lines.get? li with
  | none => g
  | some line =>
    if line.stations.length < 2 then setLine g li { line with waypoints := none }
    else
      setLine g li
        { line with
          waypoints := some (applyCorridorBundling (rebuildSegs g line.stations fuel) g line) }

/-! ### Concrete fixtures for counterexamples and witnesses -/

/-- The default configuration values of main.js, used by the fixtures. -/
def cfg0 : Config :=
  { trainSpeed := 0.085, defaultMCT := 10000, mctMultiplier := 0.5,
    defaultTurnaroundMs := 500, maxWaitSeconds := 200,
    missedConnectionMultiplier := 3, lineColors := ["#e6194b", "#3cb44b"],
    hexGrid := { size := 44, bundleThreshold := none, corridorSpacing := none,
                 terminalBubbleRadius := none },
    hubAndSpokeMode := false, hubSpokeBias := 1, hubSpokeBoardingWaitMs := 10000,
    hubDesiredTrainBonus := none, hubLinePriorityBonus := 200 }

/-- A plain station at `(x, y)` with id `i`. -/
def mkStation (i : ℕ) (x y : ℝ) : Station :=
  { id := i, name := "S", x := x, y := y, shape := 0, isFinal := false,
    isInterchange := false, mctMs := some 10000, turnaroundMs := some 500,
    queue := [], connections := [], overflowTimer := 0, isOvercrowded := false }

/-- An empty world on day 5 with an empty vehicle pool. -/
def baseGame : Game :=
  { stations := [], lines := [], trains := [], config := cfg0, gameTime := 0,
    day := 5, gameOver := false, gameOverReason := none, score := 0, combo := none,
    trainsAvailable := 0, carriages := 0, tunnels := 0, totalPassengers := 0,
    scorePopups := 0, finalDeliveries := 0, totalFinalDeliveryTime := 0 }

/-- One-station world for the `createLine` duplicate-ids counterexample. -/
def gameC3 : Game := { baseGame with stations := [mkStation 0 0 0] }

/-- An idle train fixture. -/
def trainC7 : Train :=
  { id := 0, lineId := 0, position := 0, direction := 1, passengers := [],
    capacity := 10, speed := 1, lastStationVisited := none, stationCooldown := 0,
    dwellRemaining := 0 }

/-- A world holding just `trainC7`. -/
def gameC7 : Game := { baseGame with trains := [trainC7] }

/-- A queued passenger at station 2 bound for station 3 (on line B). -/
def pC8 : Passenger :=
  { pid := 0, destStation := 3, destShape := 0, spawnTime := 0, startTime := 0,
    waitTime := 0, originStation := 2, transferReadyAt := 0, transferCount := 0,
    isVIP := false, pointMultiplier := 0 }

/-- Line A: two stations, no vehicles, zero length. -/
def lineC8A : Line :=
  { id := 0, stations := [0, 1], colorIndex := 0, isLoop := false, trains := [],
    waypoints := none, totalLength := 0 }

/-- Line B: two stations, one vehicle, very long, with direct demand. -/
def lineC8B : Line :=
  { id := 1, stations := [2, 3], colorIndex := 1, isLoop := false, trains := [0],
    waypoints := none, totalLength := 105000 }

/-- The vehicle already running on line B. -/
def trainC8 : Train :=
  { id := 0, lineId := 1, position := 0, direction := 1, passengers := [],
    capacity := 10, speed := 1, lastStationVisited := none, stationCooldown := 0,
    dwellRemaining := 0 }

/-- Fleet-allocation scenario: one pooled vehicle, line A with zero vehicles,
line B with one vehicle, higher demand and much greater length. -/
def gameC8 : Game :=
  { baseGame with
    stations := [mkStation 0 0 0, mkStation 1 0 0,
      { mkStation 2 0 0 with queue := [pC8], connections := [1] },
      { mkStation 3 0 0 with connections := [1] }]
    lines := [lineC8A, lineC8B]
    trains := [trainC8]
    trainsAvailable := 1 }

/-- Line B with its great length removed: its priority (demand only) now
stays below line A's zero-vehicle boost. -/
def lineC8BW : Line := { lineC8B with totalLength := 0 }

/-- The same allocation scenario with the short variant of line B. -/
def gameC8W : Game := { gameC8 with lines := [lineC8A, lineC8BW] }

/-- A loop line between two stations 100 apart. -/
def lineC6 : Line :=
  { id := 0, stations := [0, 1], colorIndex := 0, isLoop := true, trains := [0],
    waypoints := none, totalLength := 100 }

/-- A fast vehicle mid-loop with an active arrival cooldown. -/
def trainC6 : Train :=
  { id := 0, lineId := 0, position := 0.7, direction := 1, passengers := [],
    capacity := 10, speed := 100, lastStationVisited := none, stationCooldown := 5,
    dwellRemaining := 0 }

/-- World for the loop-wraparound counterexample. -/
def gameC6 : Game :=
  { baseGame with
    stations := [mkStation 0 0 0, mkStation 1 100 0]
    lines := [lineC6]
    trains := [trainC6] }

/-- A long-queued passenger whose destination is its own station. -/
def pC5 : Passenger :=
  { pid := 0, destStation := 0, destShape := 0, spawnTime := 0, startTime := 0,
    waitTime := 0, originStation := 0, transferReadyAt := 0, transferCount := 0,
    isVIP := false, pointMultiplier := 0 }

/-- A station with no connections holding that passenger. -/
def stC5 : Station := { mkStation 0 0 0 with queue := [pC5] }

/-- World for the stranded-passenger counterexample, 300 s in. -/
def gameC5 : Game := { baseGame with stations := [stC5], gameTime := 300000 }

/-- The passenger after the sweep's wait-time refresh. -/
def pC5w : Passenger := { pC5 with waitTime := (300000 : ℚ) - 0 }

/-- The station as seen by the stranded scan. -/
def stC5f : Station := { stC5 with queue := [pC5w] }

/-- The world handed to the stranded scan by the sweep. -/
def gameC5w : Game := setStation (setStation gameC5 0 stC5f) 0 stC5f

/-- The A* loop invariant: the seed has `g = 0` and no parent; every scored
cube lies on the `q + r + s = 0` lattice; every open cube is scored; and
every scored cube other than the seed has a parent with a strictly smaller
score, so parent chains reach the seed within `g` steps. -/
def AStarInv (start : Cube) (st : AStarState) : Prop :=
  st.came start = none ∧ st.gmap start = some 0 ∧
  (∀ c, (st.gmap c).isSome = true → c.q + c.r + c.s = 0) ∧
  (∀ c ∈ st.openList, (st.gmap c).isSome = true) ∧
  (∀ c gc, c ≠ start → st.gmap c = some gc →
    ∃ p gp, st.came c = some p ∧ st.gmap p = some gp ∧ gp < gc)

/-! ### Theorems -/

/-- Claim C2, counterexample: with turnaround 600 ms on day 5 at a
non-interchange station, the dwell computed with `isOvercrowded` set (480 ms)
is strictly smaller than with it clear (600 ms) — the code's crowding factor
0.8 is a discount, not a penalty, refuting "no smaller than". -/
theorem dwell_overcrowded_is_shorter :
    dwellMs (some 600) 500 5 true false < dwellMs (some 600) 500 5 false false := by
  norm_num [dwellMs]

/-- Claim C2 (amended): the dwell duration on arrival is the configured
turnaround time modulated by the early-game factor, a congestion *discount*
(factor 0.8) when the station is overcrowded, and an interchange discount;
with the station, day and (nonnegative) turnaround fixed, the dwell with
`isOvercrowded` set is no *larger* than with it clear. -/
theorem dwell_overcrowded_le_clear (turnaroundMs : Option ℚ) (defaultTurnaroundMs : ℚ)
    (day : ℕ) (interchange : Bool)
    (h : 0 ≤ turnaroundMs.getD (orDefault defaultTurnaroundMs 600)) :
    dwellMs turnaroundMs defaultTurnaroundMs day true interchange ≤
      dwellMs turnaroundMs defaultTurnaroundMs day false interchange := by
  unfold dwellMs
  dsimp only
  set b := turnaroundMs.getD (orDefault defaultTurnaroundMs 600) with hb
  rcases Decidable.em (day ≠ 0 ∧ day ≤ 3) with he | he <;>
    rcases interchange with _ | _ <;> simp [he] <;> nlinarith [h]

/-- Witness for `dwell_overcrowded_le_clear` at turnaround 600 ms, day 5. -/
theorem dwell_overcrowded_le_clear_witness :
    0 ≤ (some (600 : ℚ)).getD (orDefault 500 600) ∧
      dwellMs (some 600) 500 5 true false ≤ dwellMs (some 600) 500 5 false false :=
  ⟨by norm_num, dwell_overcrowded_le_clear (some 600) 500 5 false (by norm_num)⟩

/-- Claim C3, counterexample: `createLine` does not reject duplicate station
ids — called with `[0, 0]` it returns a line and appends it to the world,
refuting "returns a failure indicator and leaves the world state unchanged". -/
theorem createLine_accepts_duplicates :
    (createLine gameC3 [0, 0] none).1.isSome = true ∧
      (createLine gameC3 [0, 0] none).2.lines.length = 1 := by
  constructor <;>
    simp [createLine, gameC3, baseGame, optimizeTrainAllocation, setStation,
      pickAvailableColorIndex, cfg0, mkStation]

/-- Claim C3 (amended): for every call to `createLine` whose station-id list
has fewer than 2 entries, the call returns `none` and leaves the world state
completely unchanged.  (Duplicate ids are *not* rejected; see
`createLine_accepts_duplicates`.) -/
theorem createLine_short_rejected (g : Game) (stations : List ℕ) (ci : Option ℕ)
    (h : stations.length < 2) : createLine g stations ci = (none, g) := by
  unfold createLine
  rw [if_pos h]

/-- Witness for `createLine_short_rejected` on the empty station list. -/
theorem createLine_short_rejected_witness :
    ([] : List ℕ).length < 2 ∧ createLine gameC3 [] none = (none, gameC3) :=
  ⟨by decide, createLine_short_rejected gameC3 [] none (by decide)⟩

/-- A successful random pick returns an element of the list. -/
theorem pickByRand_mem {α : Type} {l : List α} {x : ℚ} {a : α}
    (h : pickByRand l x = some a) : a ∈ l := by
  simp only [pickByRand] at h
  split at h
  · exact List.get?_mem h
  · cases h

/-- Claim C10: `spawnPassenger` creates no passenger when the game is over or
fewer than two stations exist, and every passenger it creates has a
destination station id different from its origin station id (every
destination pool is filtered by `s.id !== originIndex`). -/
theorem spawnPassenger_dest_ne_origin (g : Game) (rand : ℕ → ℚ) :
    ((g.gameOver = true ∨ g.stations.length < 2) → spawnPassenger g rand = none) ∧
    (spawnPassenger g rand).all
      (fun pr => decide (pr.1.destStation ≠ pr.1.originStation)) = true := by
  constructor
  · intro hg
    unfold spawnPassenger
    rcases hg with hg | hg
    · simp [hg]
    · by_cases hb : g.gameOver = true <;> simp [hb, hg, Nat.not_le.mpr hg]
  · rcases e : spawnPassenger g rand with _ | pr
    · simp
    · rw [Option.all_some]
      rw [decide_eq_true_eq]
      unfold spawnPassenger at e
      split at e
      · cases e
      split at e
      · cases e
      dsimp only at e
      split at e
      · cases e
      rename_i oi origin hpick
      split at e
      · cases e
      rename_i dest hdest
      cases e
      dsimp only
      -- `dest` came from one of the three `s.id ≠ origin.id`-filtered pools
      have hne : dest.id ≠ origin.id := by
        repeat' split at hdest
        all_goals
          first
          | exact Option.noConfusion hdest
          | (have h' := pickByRand_mem hdest
             simp only [List.mem_filter, decide_eq_true_eq] at h'
             tauto)
      exact hne

/-- Witness for `spawnPassenger_dest_ne_origin` on the empty world. -/
theorem spawnPassenger_dest_ne_origin_witness :
    (baseGame.gameOver = true ∨ baseGame.stations.length < 2) ∧
      spawnPassenger baseGame (fun _ => 0) = none :=
  ⟨Or.inr (by decide),
    (spawnPassenger_dest_ne_origin baseGame (fun _ => 0)).1 (Or.inr (by decide))⟩

/-- `setTrain` only rewrites the train list. -/
theorem setTrain_trains (g : Game) (i : ℕ) (t : Train) :
    (setTrain g i t).trains = g.trains.set i t := rfl

/-- `setStation` leaves the train list unchanged. -/
theorem setStation_trains (g : Game) (i : ℕ) (s : Station) :
    (setStation g i s).trains = g.trains := rfl

/-- Each disembark step grows the kept-on-board list by at most one. -/
theorem disembarkOne_remaining_le (g : Game) (line : Line) (station : Station)
    (now : ℚ) (acc : ArrivalAcc) (p : Passenger) :
    (disembarkOne g line station now acc p).remaining.length ≤
      acc.remaining.length + 1 := by
  unfold disembarkOne
  repeat' split
  all_goals simp

/-- The disembark fold keeps at most the passengers it started from. -/
theorem disembark_fold_remaining_le (g : Game) (line : Line) (station : Station)
    (now : ℚ) : ∀ (ps : List Passenger) (acc : ArrivalAcc),
    ((ps.foldl (disembarkOne g line station now) acc).remaining).length ≤
      acc.remaining.length + ps.length := by
  intro ps
  induction ps with
  | nil => intro acc; simp
  | cons p ps ih =>
    intro acc
    have h1 := disembarkOne_remaining_le g line station now acc p
    have h2 := ih (disembarkOne g line station now acc p)
    simp only [List.foldl_cons, List.length_cons]
    omega

/-- The boarding fold keeps `boarded.length = picked` and `picked ≤ capacity`. -/
theorem board_fold_bound (g : Game) (line : Line) (sid : ℕ) (now : ℚ) (capacity : ℤ) :
    ∀ (q : List Passenger) (b : List Passenger × List Passenger × ℕ),
    b.2.1.length = b.2.2 → (b.2.2 : ℤ) ≤ capacity →
    (q.foldl (boardOne g line sid now capacity) b).2.1.length =
        (q.foldl (boardOne g line sid now capacity) b).2.2 ∧
      ((q.foldl (boardOne g line sid now capacity) b).2.2 : ℤ) ≤ capacity := by
  intro q
  induction q with
  | nil => intro b h1 h2; exact ⟨h1, h2⟩
  | cons p q ih =>
    intro b h1 h2
    simp only [List.foldl_cons]
    apply ih
    · unfold boardOne
      repeat' split
      all_goals simp [h1]
    · unfold boardOne
      split
      · simpa using h2
      split
      · simpa using h2
      split
      · rename_i hc _ _
        simp only []
        push_cast
        omega
      · simpa using h2

/-- `ensureCombo` leaves the train list unchanged. -/
theorem ensureCombo_trains (g : Game) : (ensureCombo g).trains = g.trains := by
  unfold ensureCombo; split <;> rfl

/-- `get?` of `set` at the written index. -/
theorem List.get?_set_eq_of_lt_local {α : Type} {l : List α} {i : ℕ} {a : α}
    (h : i < l.length) : (l.set i a).get? i = some a := by
  rw [List.get?_eq_getElem?, List.getElem?_set_self (by simpa using h)]

/-- `get?` of `set` at a different index. -/
theorem List.get?_set_ne_local {α : Type} {l : List α} {i j : ℕ} {a : α}
    (h : i ≠ j) : (l.set i a).get? j = l.get? j := by
  rw [List.get?_eq_getElem?, List.get?_eq_getElem?, List.getElem?_set_ne h]

/-- Combining the two boarding-fold invariants: the boarded list fits in the
remaining capacity `cap - r`. -/
theorem arrival_board_append_le (G : Game) (line : Line) (sid : ℕ) (now : ℚ)
    (r cap : ℕ) (q : List Passenger) (h : ¬((cap : ℤ) - r ≤ 0)) :
    r + (q.foldl (boardOne G line sid now ((cap : ℤ) - r)) ([], [], 0)).2.1.length ≤ cap := by
  have hb := board_fold_bound G line sid now ((cap : ℤ) - r) q ([], [], 0) rfl
    (by change ((0 : ℕ) : ℤ) ≤ _; omega)
  omega

/-- Claim C7: if every vehicle carries at most its capacity before an
arrival-handling pass (disembark, transfer push-back, then boarding limited by
remaining capacity), it still does afterwards, for every station and queue. -/
theorem handleStationArrival_capacity (g : Game) (ti si tj : ℕ) (t : Train)
    (ht : g.trains.get? tj = some t) (hcap : t.passengers.length ≤ t.capacity) :
    ∀ t', (handleStationArrival g ti si).trains.get? tj = some t' →
      t'.passengers.length ≤ t'.capacity := by
  intro t' ht'
  unfold handleStationArrival at ht'
  split at ht'
  · rw [ht] at ht'; cases ht'; exact hcap
  rename_i train htrain
  split at ht'
  · rw [ht] at ht'; cases ht'; exact hcap
  rename_i line hline
  split at ht'
  · rw [ht] at ht'; cases ht'; exact hcap
  rename_i station hstation
  by_cases hij : tj = ti
  · subst hij
    rw [htrain] at ht
    cases ht
    have hlen : tj < g.trains.length := (List.get?_eq_some.mp htrain).1
    have hlen' : tj < (ensureCombo g).trains.length := by rw [ensureCombo_trains]; exact hlen
    simp only [] at ht'
    split at ht'
    · simp only [setStation_trains, setTrain_trains, ensureCombo_trains] at ht'
      rw [List.get?_set_eq_of_lt_local hlen] at ht'
      cases ht'
      have hrem := disembark_fold_remaining_le (ensureCombo g) line station
        g.gameTime t.passengers
        ⟨[], [], (ensureCombo g).score, (ensureCombo g).combo.getD ⟨0, 0, 1⟩, 0, 0,
         (ensureCombo g).finalDeliveries, (ensureCombo g).totalFinalDeliveryTime⟩
      simp only [List.length_nil, Nat.zero_add] at hrem
      exact le_trans hrem hcap
    · rename_i hcappos
      simp only [setStation_trains, setTrain_trains, ensureCombo_trains, List.set_set] at ht'
      rw [List.get?_set_eq_of_lt_local hlen] at ht'
      cases ht'
      simp only [List.length_append]
      exact arrival_board_append_le _ line station.id g.gameTime _ _ _ hcappos
  · simp only [] at ht'
    split at ht' <;>
    · simp only [setStation_trains, setTrain_trains, ensureCombo_trains, List.set_set,
        List.get?_set_ne_local (Ne.symm hij)] at ht'
      rw [ht] at ht'
      cases ht'
      exact hcap

/-- Witness for `handleStationArrival_capacity` with an empty train. -/
theorem handleStationArrival_capacity_witness :
    gameC7.trains.get? 0 = some trainC7 ∧
      trainC7.passengers.length ≤ trainC7.capacity ∧
      (handleStationArrival gameC7 0 0).trains.get? 0 = some trainC7 ∧
      trainC7.passengers.length ≤ trainC7.capacity :=
  ⟨rfl, by decide, rfl,
    handleStationArrival_capacity gameC7 0 0 0 trainC7 rfl (by decide) trainC7 rfl⟩

/-- `setLine` leaves stations and config unchanged, and sets the line list. -/
theorem setLine_stations (g : Game) (i : ℕ) (l : Line) :
    (setLine g i l).stations = g.stations := rfl

/-- `setLine` preserves the configuration. -/
theorem setLine_config (g : Game) (i : ℕ) (l : Line) :
    (setLine g i l).config = g.config := rfl

/-- `setLine` rewrites the line list. -/
theorem setLine_lines (g : Game) (i : ℕ) (l : Line) :
    (setLine g i l).lines = g.lines.set i l := rfl

/-- `applyTerminalBubbles` reads the game only through its configuration. -/
theorem applyTerminalBubbles_congr (path : List Point) (s e : Option Station)
    (g1 g2 : Game) (hc : g1.config = g2.config) :
    applyTerminalBubbles path s e g1 = applyTerminalBubbles path s e g2 := by
  unfold applyTerminalBubbles
  rw [hc]

/-- `rebuildSegs` reads the game only through stations and configuration. -/
theorem rebuildSegs_congr (stations : List ℕ) (fuel : ℕ) (g1 g2 : Game)
    (hs : g1.stations = g2.stations) (hc : g1.config = g2.config) :
    rebuildSegs g1 stations fuel = rebuildSegs g2 stations fuel := by
  unfold rebuildSegs
  rw [hs, hc]
  congr 1
  funext pts i
  rcases g2.stations.get? (stations.getD i 0) with _ | A <;>
    rcases g2.stations.get? (stations.getD (i + 1) 0) with _ | B <;>
    simp only []
  rw [applyTerminalBubbles_congr _ _ _ g1 g2 hc]

/-- `applyCorridorBundling` reads the game only through its configuration and
the current-line-excluded line list. -/
theorem applyCorridorBundling_congr (path : List Point) (g1 g2 : Game)
    (l1 l2 : Line) (hc : g1.config = g2.config)
    (hf : g1.lines.filter (fun l => l.id ≠ l1.id) = g2.lines.filter (fun l => l.id ≠ l2.id)) :
    applyCorridorBundling path g1 l1 = applyCorridorBundling path g2 l2 := by
  unfold applyCorridorBundling
  rw [hc, hf]

/-- Setting an index whose old and new values both fail the predicate leaves a
filter unchanged. -/
theorem filter_set_of_fail {α : Type} (p : α → Bool) :
    ∀ (l : List α) (i : ℕ) (a b : α), l.get? i = some b → p b = false → p a = false →
    (l.set i a).filter p = l.filter p := by
  intro l
  induction l with
  | nil => intro i a b h _ _; cases h
  | cons x xs ih =>
    intro i a b hb hpb hpa
    cases i with
    | zero =>
      cases hb
      simp [List.set, List.filter_cons, hpb, hpa]
    | succ n =>
      simp only [List.set, List.filter_cons]
      rw [ih n a b hb hpb hpa]

/-- Claim C9: rebuilding a line's waypoints twice in a row, with no mutation
in between, produces the identical game state (hence a point-for-point
identical polyline): the hex router is deterministic and corridor bundling
compares only against *other* lines' waypoints, so the second pass sees
exactly the inputs of the first. -/
theorem rebuildWaypointsForLine_idempotent (g : Game) (li fuel : ℕ) :
    rebuildWaypointsForLine (rebuildWaypointsForLine g li fuel) li fuel =
      rebuildWaypointsForLine g li fuel := by
  rcases hl : g.lines.get? li with _ | line
  · have h1 : rebuildWaypointsForLine g li fuel = g := by
      unfold rebuildWaypointsForLine; rw [hl]
    rw [h1, h1]
  · have hlen : li < g.lines.length := (List.get?_eq_some.mp hl).1
    by_cases hs : line.stations.length < 2
    · have h1 : rebuildWaypointsForLine g li fuel =
          setLine g li { line with waypoints := none } := by
        unfold rebuildWaypointsForLine
        simp only [hl]
        rw [if_pos hs]
      have hl2 : (setLine g li { line with waypoints := none }).lines.get? li =
          some { line with waypoints := none } := by
        rw [setLine_lines]
        exact List.get?_set_eq_of_lt_local hlen
      rw [h1]
      unfold rebuildWaypointsForLine
      simp only [hl2]
      rw [if_pos (by simpa using hs)]
      simp [setLine, List.set_set]
    · have h1 : rebuildWaypointsForLine g li fuel = setLine g li
          { line with waypoints := some (applyCorridorBundling
              (rebuildSegs g line.stations fuel) g line) } := by
        unfold rebuildWaypointsForLine
        simp only [hl]
        rw [if_neg hs]
      have hl2 : (setLine g li { line with waypoints := some (applyCorridorBundling
            (rebuildSegs g line.stations fuel) g line) }).lines.get? li =
          some { line with waypoints := some (applyCorridorBundling
            (rebuildSegs g line.stations fuel) g line) } := by
        rw [setLine_lines]
        exact List.get?_set_eq_of_lt_local hlen
      rw [h1]
      unfold rebuildWaypointsForLine
      simp only [hl2]
      rw [if_neg (by simpa using hs)]
      have hsegs : rebuildSegs (setLine g li { line with waypoints := some (applyCorridorBundling
            (rebuildSegs g line.stations fuel) g line) }) line.stations fuel =
          rebuildSegs g line.stations fuel :=
        rebuildSegs_congr _ _ _ _ (setLine_stations ..) (setLine_config ..)
      have hfilter : (setLine g li { line with waypoints := some (applyCorridorBundling
            (rebuildSegs g line.stations fuel) g line) }).lines.filter
              (fun l => l.id ≠ line.id) =
          g.lines.filter (fun l => l.id ≠ line.id) := by
        rw [setLine_lines]
        exact filter_set_of_fail _ _ _ _ _ hl (by simp) (by simp)
      have hbundle : applyCorridorBundling (rebuildSegs (setLine g li { line with
            waypoints := some (applyCorridorBundling
              (rebuildSegs g line.stations fuel) g line) }) line.stations fuel)
            (setLine g li { line with waypoints := some (applyCorridorBundling
              (rebuildSegs g line.stations fuel) g line) })
            { line with waypoints := some (applyCorridorBundling
              (rebuildSegs g line.stations fuel) g line) } =
          applyCorridorBundling (rebuildSegs g line.stations fuel) g line := by
        rw [hsegs]
        exact applyCorridorBundling_congr _ _ _ _ _ (setLine_config ..) hfilter
      rw [hbundle]
      simp [setLine, List.set_set]

/-- Line A has no demand. -/
theorem c8_demandA : calculateLineDemand gameC8 lineC8A = 0 := by decide

/-- Line B has direct demand 2 from the queued passenger. -/
theorem c8_demandB : calculateLineDemand gameC8 lineC8B = 2 := by decide

/-- Neither line of the scenario touches a hub-class station. -/
theorem c8_hubA : lineTouchesHub gameC8 lineC8A = false := by decide

/-- Line B does not touch a hub-class station either. -/
theorem c8_hubB : lineTouchesHub gameC8 lineC8B = false := by decide

/-- Line A's priority is exactly the zero-vehicle boost. -/
theorem c8_prioA : (lineStatOf gameC8 lineC8A).priority = 100000 := by
  unfold lineStatOf
  simp only [c8_demandA, c8_hubA]
  norm_num [lineC8A]

/-- Line B's priority: length plus demand times weight. -/
theorem c8_prioB : (lineStatOf gameC8 lineC8B).priority = 105100 := by
  unfold lineStatOf
  simp only [c8_demandB, c8_hubB]
  norm_num [lineC8B]

/-- Line A's computed deficit is 1. -/
theorem c8_defA : (lineStatOf gameC8 lineC8A).deficit = 1 := by
  unfold lineStatOf
  simp only [c8_demandA, c8_hubA]
  norm_num [lineC8A, gameC8, baseGame, cfg0]
  rw [show ⌈(2 : ℚ) / 3⌉ = (1 : ℤ) by rw [Int.ceil_eq_iff] <;> norm_num]
  decide

/-- Line B's computed deficit is 1. -/
theorem c8_defB : (lineStatOf gameC8 lineC8B).deficit = 1 := by
  unfold lineStatOf
  simp only [c8_demandB, c8_hubB]
  rw [show lineC8B.totalLength = 105000 from rfl]
  rw [show ((105000 : ℝ) / 350) = 300 by norm_num]
  norm_num [lineC8B, gameC8, baseGame, cfg0]
  rw [show ⌈(2 : ℚ) / 3⌉ = (1 : ℤ) by rw [Int.ceil_eq_iff] <;> norm_num]
  rw [show ⌈(1 : ℚ) / 5⌉ = (1 : ℤ) by rw [Int.ceil_eq_iff] <;> norm_num]
  decide

/-- The scenario's line statistics sort line B (no zero-vehicle boost, but
priority 105100) ahead of zero-vehicle line A (priority 100000). -/
theorem c8_sorted :
    sortStatsDesc [lineStatOf gameC8 lineC8A, lineStatOf gameC8 lineC8B] =
      [lineStatOf gameC8 lineC8B, lineStatOf gameC8 lineC8A] := by
  unfold sortStatsDesc
  simp only [List.foldl_cons, List.foldl_nil]
  rw [show insertStatDesc (lineStatOf gameC8 lineC8A) [] = [lineStatOf gameC8 lineC8A]
    from rfl]
  unfold insertStatDesc
  rw [if_neg (by rw [c8_prioA, c8_prioB]; norm_num)]

/-- The allocation pass hands the single pooled vehicle to line B. -/
theorem c8_alloc : optimizeTrainAllocation gameC8 = allocateToLine gameC8 lineC8B.id 1 := by
  have hstep1 :
      (if gameC8.trainsAvailable = 0 then gameC8
       else if (lineStatOf gameC8 lineC8B).deficit ≤ 0 then gameC8
       else allocateToLine gameC8 (lineStatOf gameC8 lineC8B).line.id
         (min (lineStatOf gameC8 lineC8B).deficit.toNat gameC8.trainsAvailable)) =
      allocateToLine gameC8 lineC8B.id 1 := by
    rw [if_neg (show ¬gameC8.trainsAvailable = 0 by decide)]
    rw [if_neg (show ¬(lineStatOf gameC8 lineC8B).deficit ≤ 0 by rw [c8_defB]; decide)]
    rw [show min (lineStatOf gameC8 lineC8B).deficit.toNat gameC8.trainsAvailable = 1 by
      rw [c8_defB]; decide]
    rfl
  unfold optimizeTrainAllocation
  rw [if_neg (show ¬gameC8.trainsAvailable = 0 by decide)]
  simp only [show gameC8.lines.map (lineStatOf gameC8) =
      [lineStatOf gameC8 lineC8A, lineStatOf gameC8 lineC8B] from rfl,
    c8_sorted, List.foldl_cons, List.foldl_nil]
  rw [hstep1]
  rw [if_pos (show (allocateToLine gameC8 lineC8B.id 1).trainsAvailable = 0 by decide)]

/-- Claim C8, counterexample: with one pooled vehicle, two lines with deficit
1, line A with zero vehicles and line B with one vehicle but higher demand,
the vehicle goes to line *B*: its length term (105000) plus demand term (100)
exceeds the 100000 zero-vehicle boost, so the boost does not dominate. -/
theorem allocation_prefers_nonzero_line :
    lineC8A.trains = [] ∧ lineC8B.trains ≠ [] ∧ gameC8.trainsAvailable = 1 ∧
      calculateLineDemand gameC8 lineC8A < calculateLineDemand gameC8 lineC8B ∧
      (lineStatOf gameC8 lineC8A).deficit = 1 ∧
      (lineStatOf gameC8 lineC8B).deficit = 1 ∧
      ¬(lineStatOf gameC8 lineC8B).priority < (lineStatOf gameC8 lineC8A).priority ∧
      ((optimizeTrainAllocation gameC8).lines.get? 0).map Line.trains = some [] ∧
      ((optimizeTrainAllocation gameC8).lines.get? 1).map Line.trains = some [0, 1] := by
  refine ⟨rfl, by decide, rfl, ?_, c8_defA, c8_defB, ?_, ?_, ?_⟩
  · rw [c8_demandA, c8_demandB]; decide
  · rw [c8_prioA, c8_prioB]; norm_num
  · rw [c8_alloc]; rfl
  · rw [c8_alloc]; rfl

/-- Evaluation of `createTrain` when the line exists and is long enough: the
line gets the fresh train id appended, the pool size is untouched, and the
call reports success. -/
theorem createTrain_eval (g : Game) (i : ℕ) (line : Line)
    (hget : g.lines.get? i = some line) (hst : ¬line.stations.length < 2) :
    (createTrain g i).2.lines =
        g.lines.set i { line with trains := line.trains ++ [g.trains.length] } ∧
      (createTrain g i).2.trainsAvailable = g.trainsAvailable ∧
      (createTrain g i).1.isSome := by
  unfold createTrain
  simp only [hget]
  rw [if_neg hst]
  exact ⟨rfl, rfl, rfl⟩

/-- Evaluation of one allocation round: with a nonempty pool and a valid,
long-enough line, one train is appended to the line and the pool shrinks. -/
theorem allocateToLine_one_eval (g : Game) (i : ℕ) (line : Line)
    (hget : g.lines.get? i = some line) (h0 : ¬g.trainsAvailable = 0)
    (hst : ¬line.stations.length < 2) :
    (allocateToLine g i 1).lines =
        g.lines.set i { line with trains := line.trains ++ [g.trains.length] } ∧
      (allocateToLine g i 1).trainsAvailable = g.trainsAvailable - 1 := by
  obtain ⟨hL, hA, hS⟩ := createTrain_eval g i line hget hst
  rcases hct : createTrain g i with ⟨t, G⟩
  rw [hct] at hL hA hS
  cases t with
  | none => simp at hS
  | some tr =>
      have hL' : G.lines =
          g.lines.set i { line with trains := line.trains ++ [g.trains.length] } := hL
      have hA' : G.trainsAvailable = g.trainsAvailable := hA
      unfold allocateToLine
      rw [if_neg h0, hct]
      refine ⟨?_, ?_⟩
      · show G.lines = _
        exact hL'
      · show G.trainsAvailable - 1 = g.trainsAvailable - 1
        rw [hA']

/-- Claim C8, amended: lines are ranked by the score boost + totalLength +
50·demand + hub bonus, where boost = 100000 exactly when the line has zero
vehicles; the single pooled vehicle goes to the zero-vehicle line *provided*
its boosted score is at least the other line's score (the boost is additive
and can be dominated, e.g. by a huge totalLength). -/
theorem allocation_zero_vehicle_first (g : Game) (l0 l1 : Line)
    (hl : g.lines = [l0, l1]) (hid : l0.id = 0)
    (htr : l0.trains = []) (hst : ¬l0.stations.length < 2)
    (hav : g.trainsAvailable = 1)
    (hdef : 0 < (lineStatOf g l0).deficit)
    (hprio : (lineStatOf g l1).priority ≤ (lineStatOf g l0).priority) :
    ((optimizeTrainAllocation g).lines.get? 0).map (fun l => l.trains.length) = some 1 ∧
      (optimizeTrainAllocation g).lines.get? 1 = some l1 ∧
      (optimizeTrainAllocation g).trainsAvailable = 0 := by
  have h0 : ¬g.trainsAvailable = 0 := by omega
  have hget : g.lines.get? l0.id = some l0 := by rw [hid, hl]; rfl
  obtain ⟨hLines, hAvail⟩ := allocateToLine_one_eval g l0.id l0 hget h0 hst
  have hA0 : (allocateToLine g l0.id 1).trainsAvailable = 0 := by rw [hAvail, hav]
  have hmap : g.lines.map (lineStatOf g) = [lineStatOf g l0, lineStatOf g l1] := by
    rw [hl]; rfl
  have hsort : sortStatsDesc [lineStatOf g l0, lineStatOf g l1] =
      [lineStatOf g l0, lineStatOf g l1] := by
    unfold sortStatsDesc
    simp only [List.foldl_cons, List.foldl_nil]
    rw [show insertStatDesc (lineStatOf g l0) [] = [lineStatOf g l0] from rfl]
    unfold insertStatDesc
    rw [if_pos hprio]
    rfl
  have hopt : optimizeTrainAllocation g = allocateToLine g l0.id 1 := by
    unfold optimizeTrainAllocation
    rw [if_neg h0]
    simp only [hmap, hsort, List.foldl_cons, List.foldl_nil]
    rw [if_neg h0]
    rw [if_neg (show ¬(lineStatOf g l0).deficit ≤ 0 by omega)]
    rw [show (lineStatOf g l0).line.id = l0.id from rfl]
    rw [show min (lineStatOf g l0).deficit.toNat g.trainsAvailable = 1 by omega]
    rw [if_pos hA0]
  refine ⟨?_, ?_, ?_⟩
  · rw [hopt, hLines, hid, hl]
    simp [htr]
  · rw [hopt, hLines, hid, hl]
    rfl
  · rw [hopt, hA0]

/-- In the witness scenario line A still has no demand. -/
theorem c8w_demandA : calculateLineDemand gameC8W lineC8A = 0 := by decide

/-- In the witness scenario the short line B still has demand 2. -/
theorem c8w_demandB : calculateLineDemand gameC8W lineC8BW = 2 := by decide

/-- Neither line of the witness scenario touches a hub-class station. -/
theorem c8w_hubA : lineTouchesHub gameC8W lineC8A = false := by decide

/-- The short line B does not touch a hub-class station either. -/
theorem c8w_hubB : lineTouchesHub gameC8W lineC8BW = false := by decide

/-- Line A's priority is exactly the zero-vehicle boost in the witness too. -/
theorem c8w_prioA : (lineStatOf gameC8W lineC8A).priority = 100000 := by
  unfold lineStatOf
  simp only [c8w_demandA, c8w_hubA]
  norm_num [lineC8A]

/-- The short line B's priority is just its demand term. -/
theorem c8w_prioB : (lineStatOf gameC8W lineC8BW).priority = 100 := by
  unfold lineStatOf
  simp only [c8w_demandB, c8w_hubB]
  norm_num [lineC8BW, lineC8B]

/-- Line A's deficit is 1 in the witness scenario. -/
theorem c8w_defA : (lineStatOf gameC8W lineC8A).deficit = 1 := by
  unfold lineStatOf
  simp only [c8w_demandA, c8w_hubA]
  norm_num [lineC8A, gameC8W, gameC8, baseGame, cfg0]
  rw [show ⌈(2 : ℚ) / 3⌉ = (1 : ℤ) by rw [Int.ceil_eq_iff] <;> norm_num]
  decide

/-- Witness: with line B shortened so its score (100) stays below the boost,
the zero-vehicle line A does receive the pooled vehicle. -/
theorem allocation_zero_vehicle_first_witness :
    ((optimizeTrainAllocation gameC8W).lines.get? 0).map (fun l => l.trains.length) =
        some 1 ∧
      (optimizeTrainAllocation gameC8W).lines.get? 1 = some lineC8BW ∧
      (optimizeTrainAllocation gameC8W).trainsAvailable = 0 :=
  allocation_zero_vehicle_first gameC8W lineC8A lineC8BW rfl rfl rfl (by decide) rfl
    (by rw [c8w_defA]; decide) (by rw [c8w_prioB, c8w_prioA]; norm_num)

/-- `findCrossing` never fires while the arrival cooldown is positive. -/
theorem findCrossing_cooldown (norm : List ℝ) (st : List ℕ) (lv : Option ℕ)
    (c : ℚ) (s e : ℝ) (d : ℤ) (hc : ¬c ≤ 0) :
    findCrossing norm st lv c s e d = none := by
  unfold findCrossing
  simp only [List.find?_eq_none, decide_eq_true_eq]
  intro i _ hok
  exact hc hok.2.2

/-- Claim C6, counterexample: on a loop line of safe length 100, a vehicle at
position 0.7 with speed 100 and an active cooldown, updated with dt = 3/2,
proposes 0.7 + 1.5 = 2.2; the single wraparound subtracts one and the update
returns position 1.2, outside [0,1) (indeed above 1), uncorrected. -/
theorem loop_wrap_escapes_range :
    ((updateOneTrain gameC6 0 (3/2)).trains.get? 0).map Train.position =
        some 1.2 ∧ (1 : ℝ) < 1.2 := by
  refine ⟨?_, by norm_num⟩
  unfold updateOneTrain
  simp only [show gameC6.trains.get? 0 = some trainC6 from rfl,
    show gameC6.lines.get? trainC6.lineId = some lineC6 from rfl]
  rw [if_neg (show ¬lineC6.stations.length < 2 by decide)]
  rw [if_neg (show ¬¬∀ si ∈ lineC6.stations, ((gameC6.stations.get? si).isSome = true)
    by decide)]
  rw [if_pos (show 0 < trainC6.stationCooldown by norm_num [trainC6])]
  rw [if_neg (show ¬0 < ({ trainC6 with
    stationCooldown := trainC6.stationCooldown - (3/2 : ℚ) } : Train).dwellRemaining
    by norm_num [trainC6])]
  simp only [moveTrain]
  rw [if_neg (show ¬¬lineC6.isLoop = true by decide)]
  rw [if_pos (show lineC6.isLoop = true ∧ (1.0 : ℝ) < ({ trainC6 with
      stationCooldown := trainC6.stationCooldown - (3/2 : ℚ) } : Train).position +
      ((({ trainC6 with stationCooldown := trainC6.stationCooldown - (3/2 : ℚ) } :
          Train).speed * (3/2 : ℚ) : ℚ) : ℝ) / max 100 lineC6.totalLength *
      ((({ trainC6 with stationCooldown := trainC6.stationCooldown - (3/2 : ℚ) } :
          Train).direction : ℤ) : ℝ) by
    refine ⟨rfl, ?_⟩
    show (1.0 : ℝ) < (0.7 : ℝ) + (((100 : ℚ) * (3/2 : ℚ) : ℚ) : ℝ) /
      max 100 (100 : ℝ) * ((1 : ℤ) : ℝ)
    norm_num)]
  rw [findCrossing_cooldown _ _ _ _ _ _ _ (show ¬({ trainC6 with
    stationCooldown := trainC6.stationCooldown - (3/2 : ℚ) } : Train).stationCooldown ≤ 0
    by norm_num [trainC6])]
  rw [findCrossing_cooldown _ _ _ _ _ _ _ (show ¬({ trainC6 with
    stationCooldown := trainC6.stationCooldown - (3/2 : ℚ) } : Train).stationCooldown ≤ 0
    by norm_num [trainC6])]
  show some (({ trainC6 with stationCooldown := trainC6.stationCooldown - (3/2 : ℚ) } :
      Train).position +
      ((({ trainC6 with stationCooldown := trainC6.stationCooldown - (3/2 : ℚ) } :
          Train).speed * (3/2 : ℚ) : ℚ) : ℝ) / max 100 lineC6.totalLength *
      ((({ trainC6 with stationCooldown := trainC6.stationCooldown - (3/2 : ℚ) } :
          Train).direction : ℤ) : ℝ) - 1.0) = some 1.2
  congr 1
  show (0.7 : ℝ) + (((100 : ℚ) * (3/2 : ℚ) : ℚ) : ℝ) / max 100 (100 : ℝ) *
      ((1 : ℤ) : ℝ) - 1.0 = 1.2
  norm_num

/-- Distances between stations are nonnegative. -/
theorem stationDist_nonneg (A B : Station) : 0 ≤ stationDist A B :=
  Real.sqrt_nonneg _

/-- Partial sums of nonnegative reals stay between the seed and the total. -/
theorem scanl_add_bounds (ds : List ℝ) (c : ℝ) (hds : ∀ d ∈ ds, 0 ≤ d) :
    ∀ x ∈ ds.scanl (· + ·) c, c ≤ x ∧ x ≤ c + ds.sum := by
  induction ds generalizing c with
  | nil =>
      intro x hx
      simp only [List.scanl_nil, List.mem_singleton] at hx
      simp [hx]
  | cons d ds ih =>
      intro x hx
      have hd : 0 ≤ d := hds d (by simp)
      have hsum : 0 ≤ ds.sum := List.sum_nonneg fun e he => hds e (by simp [he])
      rw [List.scanl_cons] at hx
      rcases List.mem_cons.mp hx with rfl | hx
      · refine ⟨le_refl _, ?_⟩
        simp only [List.sum_cons]
        linarith
      · have h := ih (x + d) (fun e he => hds e (by simp [he]))
        have h' := ih (c + d) (fun e he => hds e (by simp [he])) x hx
        simp only [List.sum_cons]
        exact ⟨by linarith [h'.1], by linarith [h'.2]⟩

/-- Entries of a normalized cumulative-distance list lie in `[0, 1]`. -/
theorem norm_entries_bounds (ds : List ℝ) (hds : ∀ d ∈ ds, 0 ≤ d) :
    ∀ x ∈ (0 : ℝ) :: ((ds.scanl (· + ·) 0).tail.map (· / max ds.sum 1e-6)),
      0 ≤ x ∧ x ≤ 1 := by
  intro x hx
  rcases List.mem_cons.mp hx with rfl | hx
  · norm_num
  · obtain ⟨y, hy, rfl⟩ := List.mem_map.mp hx
    have hy' := scanl_add_bounds ds 0 hds y (List.mem_of_mem_tail hy)
    have htot : (0:ℝ) < max ds.sum 1e-6 := lt_max_of_lt_right (by norm_num)
    constructor
    · exact div_nonneg (by linarith [hy'.1]) (le_of_lt htot)
    · rw [div_le_one htot]
      calc y ≤ 0 + ds.sum := hy'.2
        _ = ds.sum := by ring
        _ ≤ max ds.sum 1e-6 := le_max_left _ _

/-- Every entry of `lineNormPositions` lies in `[0, 1]`. -/
theorem lineNormPositions_mem (g : Game) (line : Line) :
    ∀ x ∈ lineNormPositions g line, 0 ≤ x ∧ x ≤ 1 := by
  intro x hx
  unfold lineNormPositions at hx
  simp only [] at hx
  refine norm_entries_bounds _ ?_ x hx
  intro d hd
  obtain ⟨ab, _, rfl⟩ := List.mem_map.mp hd
  rcases hA : g.stations.get? ab.1 with _ | A <;>
    rcases hB : g.stations.get? ab.2 with _ | B <;>
    simp [hA, hB, stationDist_nonneg]

/-- Indexing into `lineNormPositions` with default `0` stays in `[0, 1]`. -/
theorem lineNormPositions_getD (g : Game) (line : Line) (i : ℕ) :
    0 ≤ (lineNormPositions g line).getD i 0 ∧
      (lineNormPositions g line).getD i 0 ≤ 1 := by
  rcases lt_or_ge i (lineNormPositions g line).length with h | h
  · rw [List.getD_eq_getElem _ _ h]
    exact lineNormPositions_mem g line _ (List.getElem_mem h)
  · rw [List.getD_eq_default _ _ h]
    norm_num

/-- `handleStationArrival` changes a train's passenger list but never its
position. -/
theorem handleStationArrival_position (g : Game) (ti si : ℕ) :
    ((handleStationArrival g ti si).trains.get? ti).map Train.position =
      (g.trains.get? ti).map Train.position := by
  unfold handleStationArrival
  rcases ht : g.trains.get? ti with _ | train
  · simp only [ht]
  rcases hl : g.lines.get? train.lineId with _ | line
  · simp only [ht, hl]
  rcases hs : g.stations.get? si with _ | station
  · simp only [ht, hl, hs]
  have hlt : ti < g.trains.length := by
    by_contra hcon
    rw [List.get?_eq_getElem?, List.getElem?_eq_none (by omega)] at ht
    cases ht
  simp only [ht, hl, hs]
  split <;>
  · simp only [setStation, setTrain, ensureCombo_trains, List.set_set]
    rw [List.get?_set_eq_of_lt_local hlt]
    rfl

/-- `applyArrival` also preserves the train's position. -/
theorem applyArrival_position (g : Game) (ti : ℕ) (line : Line) (idx : ℕ) (p : ℝ)
    (hp : (g.trains.get? ti).map Train.position = some p) :
    ((applyArrival g ti line idx).trains.get? ti).map Train.position = some p := by
  unfold applyArrival
  have h1 := handleStationArrival_position g ti (line.stations.getD idx 0)
  rw [hp] at h1
  rcases ht' : (handleStationArrival g ti (line.stations.getD idx 0)).trains.get? ti
    with _ | tr
  · rw [ht'] at h1
    simp at h1
  rw [ht'] at h1
  have h1' : tr.position = p := by simpa using h1
  have hlt : ti < (handleStationArrival g ti (line.stations.getD idx 0)).trains.length := by
    by_contra hcon
    rw [List.get?_eq_getElem?, List.getElem?_eq_none (by omega)] at ht'
    cases ht'
  rcases hs' : (handleStationArrival g ti (line.stations.getD idx 0)).stations.get?
      (line.stations.getD idx 0) with _ | st
  · simp only [ht', hs']
    exact h1
  simp only [ht', hs']
  split <;>
  · simp only [setTrain]
    rw [List.get?_set_eq_of_lt_local hlt, ← h1']
    rfl

/-- The movement half keeps the normalized position inside `[0, 1]`, for any
line when not a loop, and for a loop when the proposed position stays within
one full wrap (between -1 and 2). -/
theorem moveTrain_position_range (g : Game) (ti : ℕ) (dt : ℚ)
    (tr : Train) (line : Line)
    (hlt : ti < g.trains.length)
    (hloop : line.isLoop = true →
      -1 ≤ tr.position + ((tr.speed * dt : ℚ) : ℝ) / max 100 line.totalLength *
          (tr.direction : ℝ) ∧
        tr.position + ((tr.speed * dt : ℚ) : ℝ) / max 100 line.totalLength *
          (tr.direction : ℝ) ≤ 2) :
    ∀ t', (moveTrain g ti dt tr line).trains.get? ti = some t' →
      0 ≤ t'.position ∧ t'.position ≤ 1 := by
  intro t' ht'
  have harr : ∀ (tr2 : Train) (q : ℝ) (i : ℕ) (t'' : Train),
      (applyArrival (setTrain g ti { tr2 with position := q }) ti line i).trains.get? ti =
          some t'' → t''.position = q := by
    intro tr2 q i t'' hA
    have hp : ((setTrain g ti { tr2 with position := q }).trains.get? ti).map
        Train.position = some q := by
      simp only [setTrain]
      rw [List.get?_set_eq_of_lt_local hlt]
      rfl
    have hQ := applyArrival_position _ ti line i _ hp
    rw [hA] at hQ
    simpa using hQ
  unfold moveTrain at ht'
  cases hiso : line.isLoop with
  | false =>
      simp only [hiso, Bool.false_eq_true, false_and, if_false, not_false_iff,
        if_true] at ht'
      repeat' split at ht'
      all_goals
        first
          | (rw [harr _ _ _ _ ht']
             exact lineNormPositions_getD g line _)
          | (rw [harr _ _ _ _ ht']
             exact ⟨le_max_left _ _, max_le (by norm_num) (min_le_left _ _)⟩)
          | (simp only [setTrain] at ht'
             rw [List.get?_set_eq_of_lt_local hlt] at ht'
             cases ht'
             constructor <;>
               first
                 | exact le_max_left _ _
                 | exact max_le (by norm_num) (min_le_left _ _)
                 | norm_num)
  | true =>
      simp only [hiso, eq_self_iff_true, not_true, true_and, if_true, if_false] at ht'
      have hb := hloop hiso
      split at ht'
      case isTrue hcond =>
        split at ht'
        next i heq =>
          rw [harr _ _ _ _ ht']
          exact lineNormPositions_getD g line _
        next heq =>
          split at ht'
          next i heq2 =>
            rw [harr _ _ _ _ ht']
            exact lineNormPositions_getD g line _
          next heq2 =>
            simp only [setTrain] at ht'
            rw [List.get?_set_eq_of_lt_local hlt] at ht'
            cases ht'
            constructor <;> simp only [] <;>
              [linarith [hcond]; linarith [hb.2]]
      case isFalse hA =>
        split at ht'
        case isTrue hcond =>
          split at ht'
          next i heq =>
            rw [harr _ _ _ _ ht']
            exact lineNormPositions_getD g line _
          next heq =>
            split at ht'
            next i heq2 =>
              rw [harr _ _ _ _ ht']
              exact lineNormPositions_getD g line _
            next heq2 =>
              simp only [setTrain] at ht'
              rw [List.get?_set_eq_of_lt_local hlt] at ht'
              cases ht'
              constructor <;> simp only [] <;>
                [linarith [hb.1]; linarith [hcond]]
        case isFalse hB =>
          have hP1 : tr.position + ((tr.speed * dt : ℚ) : ℝ) /
              max 100 line.totalLength * (tr.direction : ℝ) ≤ 1 := by
            by_contra hc
            exact hA (by linarith)
          have hP0 : 0 ≤ tr.position + ((tr.speed * dt : ℚ) : ℝ) /
              max 100 line.totalLength * (tr.direction : ℝ) := by
            by_contra hc
            exact hB (by linarith)
          split at ht'
          next i heq =>
            rw [harr _ _ _ _ ht']
            exact lineNormPositions_getD g line _
          next heq =>
            simp only [setTrain] at ht'
            repeat' split at ht'
            all_goals
              rw [List.get?_set_eq_of_lt_local hlt] at ht'
              cases ht'
              constructor <;> simp only [] <;> linarith

/-- Claim C6, amended: after a per-tick motion update, a vehicle starting with
normalized position in [0,1] ends with position in [0,1] on a non-loop line
regardless of the step size, and on a loop line provided the proposed advance
stays within one full loop (proposed position in [-1, 2]); the loop
wraparound adjusts by exactly one unit, so a tick whose advance exceeds a
full loop can leave the position out of range persistently. -/
theorem updateOneTrain_position_range (g : Game) (ti : ℕ) (dt : ℚ)
    (train : Train) (line : Line)
    (ht : g.trains.get? ti = some train)
    (hl : g.lines.get? train.lineId = some line)
    (h0 : 0 ≤ train.position) (h1 : train.position ≤ 1)
    (hloop : line.isLoop = true →
      -1 ≤ train.position + ((train.speed * dt : ℚ) : ℝ) / max 100 line.totalLength *
          (train.direction : ℝ) ∧
        train.position + ((train.speed * dt : ℚ) : ℝ) / max 100 line.totalLength *
          (train.direction : ℝ) ≤ 2) :
    ∀ t', (updateOneTrain g ti dt).trains.get? ti = some t' →
      0 ≤ t'.position ∧ t'.position ≤ 1 := by
  intro t' ht'
  have hlt : ti < g.trains.length := by
    by_contra hcon
    rw [List.get?_eq_getElem?, List.getElem?_eq_none (by omega)] at ht
    cases ht
  unfold updateOneTrain at ht'
  simp only [ht] at ht'
  simp only [hl] at ht'
  split at ht'
  · rw [ht] at ht'
    cases ht'
    exact ⟨h0, h1⟩
  split at ht'
  · rw [ht] at ht'
    cases ht'
    exact ⟨h0, h1⟩
  generalize htr1 : (if 0 < train.stationCooldown then
      { train with stationCooldown := train.stationCooldown - dt } else train) = tr1 at ht'
  have e1 : tr1.position = train.position := by
    rw [← htr1]; split <;> rfl
  have e2 : tr1.direction = train.direction := by
    rw [← htr1]; split <;> rfl
  have e3 : tr1.speed = train.speed := by
    rw [← htr1]; split <;> rfl
  split at ht'
  · -- dwell branch: position is snapped inside [0,1] or untouched
    simp only [setTrain] at ht'
    rw [List.get?_set_eq_of_lt_local hlt] at ht'
    cases ht'
    repeat' split
    all_goals constructor <;> (try simp only [e1]) <;>
      first | exact h0 | exact h1 | norm_num
  · -- movement branch, via the `moveTrain` lemma
    refine moveTrain_position_range g ti dt tr1 line hlt ?_ t' ht'
    intro hiso
    have hb := hloop hiso
    rw [← e1, ← e2, ← e3] at hb
    exact hb

/-- Evaluation of a small in-range loop tick: dt = 1/10 advances the vehicle
from 0.7 to 0.8 with no wraparound and no crossing (cooldown active). -/
theorem c6w_eval :
    (updateOneTrain gameC6 0 (1/10)).trains.get? 0 =
      some { trainC6 with stationCooldown := 49/10, position := 0.8 } := by
  unfold updateOneTrain
  simp only [show gameC6.trains.get? 0 = some trainC6 from rfl,
    show gameC6.lines.get? trainC6.lineId = some lineC6 from rfl]
  rw [if_neg (show ¬lineC6.stations.length < 2 by decide)]
  rw [if_neg (show ¬¬∀ si ∈ lineC6.stations, ((gameC6.stations.get? si).isSome = true)
    by decide)]
  rw [if_pos (show 0 < trainC6.stationCooldown by norm_num [trainC6])]
  rw [if_neg (show ¬0 < ({ trainC6 with
    stationCooldown := trainC6.stationCooldown - (1/10 : ℚ) } : Train).dwellRemaining
    by norm_num [trainC6])]
  simp only [moveTrain]
  rw [if_neg (show ¬¬lineC6.isLoop = true by decide)]
  rw [if_neg (show ¬(lineC6.isLoop = true ∧ (1.0 : ℝ) < ({ trainC6 with
      stationCooldown := trainC6.stationCooldown - (1/10 : ℚ) } : Train).position +
      ((({ trainC6 with stationCooldown := trainC6.stationCooldown - (1/10 : ℚ) } :
          Train).speed * (1/10 : ℚ) : ℚ) : ℝ) / max 100 lineC6.totalLength *
      ((({ trainC6 with stationCooldown := trainC6.stationCooldown - (1/10 : ℚ) } :
          Train).direction : ℤ) : ℝ)) from fun h => absurd h.2 (by
    show ¬(1.0 : ℝ) < (0.7 : ℝ) + (((100 : ℚ) * (1/10 : ℚ) : ℚ) : ℝ) /
      max 100 (100 : ℝ) * ((1 : ℤ) : ℝ)
    norm_num))]
  rw [if_neg (show ¬(lineC6.isLoop = true ∧ ({ trainC6 with
      stationCooldown := trainC6.stationCooldown - (1/10 : ℚ) } : Train).position +
      ((({ trainC6 with stationCooldown := trainC6.stationCooldown - (1/10 : ℚ) } :
          Train).speed * (1/10 : ℚ) : ℚ) : ℝ) / max 100 lineC6.totalLength *
      ((({ trainC6 with stationCooldown := trainC6.stationCooldown - (1/10 : ℚ) } :
          Train).direction : ℤ) : ℝ) < (0.0 : ℝ)) from fun h => absurd h.2 (by
    show ¬(0.7 : ℝ) + (((100 : ℚ) * (1/10 : ℚ) : ℚ) : ℝ) /
      max 100 (100 : ℝ) * ((1 : ℤ) : ℝ) < 0.0
    norm_num))]
  rw [findCrossing_cooldown _ _ _ _ _ _ _ (show ¬({ trainC6 with
    stationCooldown := trainC6.stationCooldown - (1/10 : ℚ) } : Train).stationCooldown ≤ 0
    by norm_num [trainC6])]
  rw [if_pos (show lineC6.isLoop = true from rfl)]
  rw [if_neg (show ¬(1.0 : ℝ) ≤ ({ trainC6 with
      stationCooldown := trainC6.stationCooldown - (1/10 : ℚ) } : Train).position +
      ((({ trainC6 with stationCooldown := trainC6.stationCooldown - (1/10 : ℚ) } :
          Train).speed * (1/10 : ℚ) : ℚ) : ℝ) / max 100 lineC6.totalLength *
      ((({ trainC6 with stationCooldown := trainC6.stationCooldown - (1/10 : ℚ) } :
          Train).direction : ℤ) : ℝ) by
    show ¬(1.0 : ℝ) ≤ (0.7 : ℝ) + (((100 : ℚ) * (1/10 : ℚ) : ℚ) : ℝ) /
      max 100 (100 : ℝ) * ((1 : ℤ) : ℝ)
    norm_num)]
  rw [if_neg (show ¬({ trainC6 with
      stationCooldown := trainC6.stationCooldown - (1/10 : ℚ) } : Train).position +
      ((({ trainC6 with stationCooldown := trainC6.stationCooldown - (1/10 : ℚ) } :
          Train).speed * (1/10 : ℚ) : ℚ) : ℝ) / max 100 lineC6.totalLength *
      ((({ trainC6 with stationCooldown := trainC6.stationCooldown - (1/10 : ℚ) } :
          Train).direction : ℤ) : ℝ) < (0.0 : ℝ) by
    show ¬(0.7 : ℝ) + (((100 : ℚ) * (1/10 : ℚ) : ℚ) : ℝ) /
      max 100 (100 : ℝ) * ((1 : ℤ) : ℝ) < 0.0
    norm_num)]
  show some _ = _
  congr 1
  congr 1 <;> norm_num [trainC6, lineC6]

/-- Witness: a small loop tick keeps the position inside [0, 1]. -/
theorem updateOneTrain_position_range_witness :
    (updateOneTrain gameC6 0 (1/10)).trains.get? 0 =
        some { trainC6 with stationCooldown := 49/10, position := 0.8 } ∧
      (0 : ℝ) ≤ ({ trainC6 with stationCooldown := 49/10, position := 0.8 } :
          Train).position ∧
      ({ trainC6 with stationCooldown := 49/10, position := 0.8 } :
          Train).position ≤ 1 :=
  ⟨c6w_eval,
    updateOneTrain_position_range gameC6 0 (1/10) trainC6 lineC6 rfl rfl
      (by norm_num [trainC6]) (by norm_num [trainC6])
      (fun _ => by
        constructor <;>
        · show _
          norm_num [trainC6, lineC6])
      _ c6w_eval⟩

/-- One isolated station reaches itself with ETA 0 (the seed value). -/
theorem c5_eta : estimateETA gameC5w 0 0 = 0 := by
  have hpick : pickMin 1 (fun _ => false) (fun i => if i = 0 then (0 : ℝ≥0∞) else ⊤) =
      some 0 := by
    unfold pickMin
    rw [show List.range 1 = [0] from rfl]
    simp [pickStep]
  have hnb : stationNeighbors gameC5w 0 = [] := rfl
  have hstep : dijkstraStep gameC5w 0 1
      { eta := fun i => if i = 0 then (0 : ℝ≥0∞) else ⊤, visited := fun _ => false } =
      some { eta := fun i => if i = 0 then (0 : ℝ≥0∞) else ⊤,
             visited := fun x => if x = 0 then true else false } := by
    unfold dijkstraStep
    rw [hpick]
    simp only []
    congr 1
  unfold estimateETA computeETAs
  rw [show gameC5w.stations.length = 1 from rfl]
  nth_rewrite 2 [show (1 : ℕ) = 0 + 1 from rfl]
  rw [dijkstraLoop]
  rw [hstep]
  simp only []
  rw [dijkstraLoop]
  simp

/-- The emergency-overcrowding pass never moves anything out of a queue of at
most one passenger: relocation needs two stuck passengers or severe (12+)
overcrowding, and express delivery needs severe overcrowding too. -/
theorem handleEmergencyOvercrowding_single (g : Game) (si : ℕ) (st : Station)
    (rand : ℕ → ℚ) (rc : ℕ)
    (hs : g.stations.get? si = some st) (hq : st.queue.length ≤ 1) :
    handleEmergencyOvercrowding g si rand rc = (g, rc) := by
  unfold handleEmergencyOvercrowding
  simp only [hs]
  split
  · rfl
  · have hstuck : (st.queue.filter fun p =>
        decide ((80000 : ℚ) < g.gameTime - p.spawnTime)).length ≤ 1 :=
      le_trans (List.length_filter_le _ _) hq
    split
    · rw [if_neg (show ¬(2 ≤ (st.queue.filter fun p =>
          decide ((80000 : ℚ) < g.gameTime - p.spawnTime)).length ∨
          (12 ≤ st.queue.length ∧ 14 < st.queue.length)) by
        push_neg
        exact ⟨by omega, fun h => by omega⟩)]
      simp only [hs]
      rw [if_neg (show ¬(st.isFinal = true ∧ 12 ≤ st.queue.length) from
        fun h => by omega)]
    · rfl

/-- The stranded station's dynamic capacity on day 5 is `round(9 * 1.1) = 10`. -/
theorem c5_cap : dynamicCapQ gameC5.day stC5f = 10 := by
  unfold dynamicCapQ
  rw [if_neg (show ¬stC5f.isFinal = true by decide)]
  rw [if_neg (show ¬stC5f.isInterchange = true by decide)]
  rw [if_neg (show ¬gameC5.day ≤ 2 by decide)]
  rw [if_neg (show ¬gameC5.day = 3 by decide)]
  rw [if_neg (show ¬gameC5.day = 4 by decide)]
  rw [round_eq]
  rw [show ((9 : ℚ) * 1.1 + 1 / 2 : ℚ) = 10.4 by norm_num]
  rw [show ⌊(10.4 : ℚ)⌋ = (10 : ℤ) by rw [Int.floor_eq_iff] <;> norm_num]

/-- The sweep's prefix (wait refresh, emergency pass, overflow check) reduces
the counterexample world to a stranded scan. -/
theorem c5_sweep_red : sweepStation gameC5 0 0 (fun _ => 0) 0 =
    strandedScan gameC5w 0 0 := by
  unfold sweepStation
  simp only [show gameC5.stations.get? 0 = some stC5 from rfl]
  rw [show ({ stC5 with queue := stC5.queue.map fun p =>
      { p with waitTime := gameC5.gameTime - p.spawnTime } } : Station) = stC5f from rfl]
  rw [handleEmergencyOvercrowding_single (setStation gameC5 0 stC5f) 0 stC5f
    (fun _ => 0) 0 rfl (by norm_num [stC5f, stC5, mkStation])]
  simp only [show ((setStation gameC5 0 stC5f, 0).1.stations.get? 0) = some stC5f from rfl]
  rw [if_neg (show ¬dynamicCapQ (setStation gameC5 0 stC5f, 0).1.day stC5f ≤
      (stC5f.queue.length : ℤ) by
    rw [show (setStation gameC5 0 stC5f, 0).1.day = gameC5.day from rfl, c5_cap]
    rw [show ((stC5f.queue.length : ℕ) : ℤ) = 1 from rfl]
    norm_num)]
  rfl

/-- The stranded scan on the counterexample world: no missed-connection end,
but the finite-ETA passenger is dropped because its station has no lines. -/
theorem c5_scan : strandedScan gameC5w 0 0 =
    (setStation gameC5w 0 { stC5f with queue := [] }, false, 0) := by
  classical
  have hcan : ¬(0 < stC5f.connections.length ∧
      estimateETA gameC5w stC5f.id pC5w.destStation ≠ ⊤) :=
    fun hc => absurd hc.1 (by norm_num [stC5f, stC5, mkStation])
  have hov : gameC5w.config.maxWaitSeconds * 1000 < pC5w.waitTime := by
    norm_num [gameC5w, gameC5, setStation, baseGame, cfg0, pC5w, pC5]
  unfold strandedScan
  simp only [show gameC5w.stations.get? 0 = some stC5f from rfl]
  rw [show stC5f.queue = [pC5w] from rfl]
  simp only [List.any_cons, List.any_nil,
    decide_eq_false (fun h => hcan h.2.1 :
      ¬(gameC5w.config.maxWaitSeconds * 1000 < pC5w.waitTime ∧
        (0 < stC5f.connections.length ∧
          estimateETA gameC5w stC5f.id pC5w.destStation ≠ ⊤) ∧
        gameC5w.config.maxWaitSeconds *
          orDefault gameC5w.config.missedConnectionMultiplier 1.5 * 1000 < pC5w.waitTime)),
    Bool.or_false]
  rw [if_neg (show ¬(false : Bool) = true by decide)]
  rw [show (List.filter (fun p => decide
      (¬(gameC5w.config.maxWaitSeconds * 1000 < p.waitTime ∧
        ¬(0 < stC5f.connections.length ∧
          estimateETA gameC5w stC5f.id p.destStation ≠ ⊤)))) [pC5w]) = [] by
    rw [List.filter_cons]
    rw [decide_eq_false (show ¬¬(gameC5w.config.maxWaitSeconds * 1000 < pC5w.waitTime ∧
        ¬(0 < stC5f.connections.length ∧
          estimateETA gameC5w stC5f.id pC5w.destStation ≠ ⊤)) from
      fun hn => hn ⟨hov, hcan⟩)]
    simp]

/-- Claim C5, counterexample: a passenger with a finite ETA to its destination
(0 ms — it queues at its own destination station) at a station with no line
connections is silently discarded by the sweep once overdue, even though its
wait is still below the missed-connection threshold, and the game does not
end: `canBeServed` requires `connections.length > 0` as well, so a finite
ETA alone does not protect a passenger from being dropped. -/
theorem stranded_finite_eta_discarded :
    estimateETA gameC5w stC5f.id pC5w.destStation ≠ ⊤ ∧
      gameC5.config.maxWaitSeconds * 1000 < pC5w.waitTime ∧
      pC5w.waitTime ≤ gameC5.config.maxWaitSeconds *
        orDefault gameC5.config.missedConnectionMultiplier 1.5 * 1000 ∧
      ((sweepStation gameC5 0 0 (fun _ => 0) 0).1.stations.get? 0).map
          (fun s => s.queue.length) = some 0 ∧
      (sweepStation gameC5 0 0 (fun _ => 0) 0).1.gameOver = false := by
  refine ⟨?_, ?_, ?_, ?_, ?_⟩
  · rw [show estimateETA gameC5w stC5f.id pC5w.destStation = estimateETA gameC5w 0 0
      from rfl, c5_eta]
    exact ENNReal.zero_ne_top
  · norm_num [gameC5, baseGame, cfg0, pC5w, pC5]
  · norm_num [gameC5, baseGame, cfg0, pC5w, pC5, orDefault]
  · rw [c5_sweep_red, c5_scan]
    rfl
  · rw [c5_sweep_red, c5_scan]
    rfl

/-- Claim C5, amended: in the sweep's stranded scan, a queued passenger is
discarded exactly when it is overdue AND cannot be served, where "can be
served" means the station has at least one line connection AND a finite ETA
to the passenger's destination exists (a finite ETA alone does not protect a
passenger at a connection-less station); servable passengers are never
discarded; and the simulation ends in failure exactly when some queued
passenger is overdue, servable, and past the missed-connection multiple of
the wait limit. -/
theorem strandedScan_spec (g : Game) (si rc : ℕ) (st : Station)
    (hs : g.stations.get? si = some st) (hlt : si < g.stations.length) :
    ∃ st', (strandedScan g si rc).1.stations.get? si = some st' ∧
      (∀ p ∈ st.queue,
        ((0 < st.connections.length ∧ estimateETA g st.id p.destStation ≠ ⊤) →
          p ∈ st'.queue) ∧
        ((g.config.maxWaitSeconds * 1000 < p.waitTime ∧
            ¬(0 < st.connections.length ∧ estimateETA g st.id p.destStation ≠ ⊤)) →
          p ∉ st'.queue)) ∧
      ((¬∃ p ∈ st.queue, g.config.maxWaitSeconds * 1000 < p.waitTime ∧
          (0 < st.connections.length ∧ estimateETA g st.id p.destStation ≠ ⊤) ∧
          g.config.maxWaitSeconds * orDefault g.config.missedConnectionMultiplier 1.5 *
            1000 < p.waitTime) →
        (strandedScan g si rc).1.gameOver = g.gameOver) ∧
      ((∃ p ∈ st.queue, g.config.maxWaitSeconds * 1000 < p.waitTime ∧
          (0 < st.connections.length ∧ estimateETA g st.id p.destStation ≠ ⊤) ∧
          g.config.maxWaitSeconds * orDefault g.config.missedConnectionMultiplier 1.5 *
            1000 < p.waitTime) →
        (strandedScan g si rc).1.gameOver = true) := by
  classical
  unfold strandedScan
  simp only [hs]
  have hmiss : (st.queue.any fun p => decide
      ((g.config.maxWaitSeconds * 1000 < p.waitTime) ∧
        (0 < st.connections.length ∧ estimateETA g st.id p.destStation ≠ ⊤) ∧
        g.config.maxWaitSeconds * orDefault g.config.missedConnectionMultiplier 1.5 *
          1000 < p.waitTime)) = true ↔
      ∃ p ∈ st.queue, (g.config.maxWaitSeconds * 1000 < p.waitTime) ∧
        (0 < st.connections.length ∧ estimateETA g st.id p.destStation ≠ ⊤) ∧
        g.config.maxWaitSeconds * orDefault g.config.missedConnectionMultiplier 1.5 *
          1000 < p.waitTime := by
    rw [List.any_eq_true]
    constructor
    · rintro ⟨p, hp, hdec⟩
      exact ⟨p, hp, of_decide_eq_true hdec⟩
    · rintro ⟨p, hp, h⟩
      exact ⟨p, hp, decide_eq_true h⟩
  refine ⟨{ st with queue := st.queue.filter (fun p => decide (¬(g.config.maxWaitSeconds * 1000 < p.waitTime ∧ ¬(0 < st.connections.length ∧ estimateETA g st.id p.destStation ≠ ⊤)))) }, ?_, ?_, ?_, ?_⟩
  · show (_ : Game).stations.get? si = _
    simp only [setStation]
    split <;>
      rw [List.get?_set_eq_of_lt_local (by simpa [Game.endGame] using hlt)]
  · intro p hp
    constructor
    · intro hserve
      simp only [List.mem_filter]
      refine ⟨hp, decide_eq_true ?_⟩
      intro hcon
      exact hcon.2 hserve
    · intro hdrop
      simp only [List.mem_filter]
      rintro ⟨-, hdec⟩
      exact of_decide_eq_true hdec hdrop
  · intro hno
    have : (st.queue.any fun p => decide
        ((g.config.maxWaitSeconds * 1000 < p.waitTime) ∧
          (0 < st.connections.length ∧ estimateETA g st.id p.destStation ≠ ⊤) ∧
          g.config.maxWaitSeconds * orDefault g.config.missedConnectionMultiplier 1.5 *
            1000 < p.waitTime)) = false := by
      rw [← Bool.not_eq_true, hmiss]
      exact hno
    rw [this]
    simp [setStation]
  · intro hyes
    rw [hmiss.mpr hyes]
    simp [setStation, Game.endGame]

/-- Witness: on the counterexample world the scan's game-over clause does not
fire (its queued passenger is not servable), so the game state's flag is
unchanged. -/
theorem strandedScan_spec_witness :
    (strandedScan gameC5w 0 0).1.gameOver = gameC5w.gameOver := by
  obtain ⟨st', hst', hmem, hng, hg⟩ := strandedScan_spec gameC5w 0 0 stC5f rfl
    (by norm_num [gameC5w, gameC5, setStation, baseGame])
  refine hng ?_
  rintro ⟨p, hp, -, hB, -⟩
  rw [show stC5f.queue = [pC5w] from rfl] at hp
  rcases List.mem_singleton.mp hp with rfl
  exact absurd hB.1 (by norm_num [stC5f, stC5, mkStation])

/-- `pixelToCube` always produces a lattice cube (`q + r + s = 0`). -/
theorem pixelToCube_sum (x y size : ℝ) :
    (pixelToCube x y size).q + (pixelToCube x y size).r + (pixelToCube x y size).s = 0 := by
  unfold pixelToCube roundCube
  simp only []
  split
  · ring
  split
  · ring
  · ring

/-- Hex neighbours stay on the lattice and differ from their centre. -/
theorem getHexNeighbors_spec (c : Cube) :
    ∀ nb ∈ getHexNeighbors c, nb ≠ c ∧ nb.q + nb.r + nb.s = c.q + c.r + c.s := by
  cases c with
  | mk q r s =>
    intro nb hnb
    unfold getHexNeighbors at hnb
    simp only [List.mem_cons, List.not_mem_nil, or_false] at hnb
    rcases hnb with rfl | rfl | rfl | rfl | rfl | rfl <;>
      refine ⟨fun h => ?_, by ring⟩ <;>
      · injection h with h1 h2 h3
        omega

/-- Two lattice cubes within hex distance `< 1` coincide. -/
theorem hexDistance_lt_one (a b : Cube) (ha : a.q + a.r + a.s = 0)
    (hb : b.q + b.r + b.s = 0) (h : hexDistance a b < 1) : a = b := by
  unfold hexDistance at h
  rw [div_lt_one (by norm_num)] at h
  have hn : ((a.q - b.q).natAbs + (a.r - b.r).natAbs + (a.s - b.s).natAbs : ℕ) < 2 := by
    exact_mod_cast h
  cases a
  cases b
  simp only [Cube.mk.injEq]
  simp only [] at ha hb hn
  omega

/-- `reconPath` is never empty. -/
theorem reconPath_ne_nil (came : Cube → Option Cube) :
    ∀ fuel c, reconPath came fuel c ≠ [] := by
  intro fuel c
  cases fuel with
  | zero => simp [reconPath]
  | succ fuel =>
      unfold reconPath
      split
      · simp
      · simp

/-- `reconPath` ends at its argument. -/
theorem reconPath_getLast (came : Cube → Option Cube) :
    ∀ fuel c, (reconPath came fuel c).getLast? = some c := by
  intro fuel
  induction fuel with
  | zero => intro c; simp [reconPath]
  | succ fuel ih =>
      intro c
      unfold reconPath
      split
      · simp
      · simp

/-- With strictly descending parent scores, `reconPath` starts at the seed
whenever the fuel covers the argument's score. -/
theorem reconPath_head (start : Cube) (came : Cube → Option Cube)
    (gmap : Cube → Option ℕ) (hstart : came start = none)
    (hchain : ∀ c gc, c ≠ start → gmap c = some gc →
      ∃ p gp, came c = some p ∧ gmap p = some gp ∧ gp < gc) :
    ∀ fuel c gc, gmap c = some gc → gc ≤ fuel →
      (reconPath came fuel c).head? = some start := by
  intro fuel
  induction fuel with
  | zero =>
      intro c gc hg hle
      have hc : c = start := by
        by_contra hne
        obtain ⟨p, gp, -, -, hlt⟩ := hchain c gc hne hg
        omega
      subst hc
      simp [reconPath]
  | succ fuel ih =>
      intro c gc hg hle
      by_cases hc : c = start
      · subst hc
        unfold reconPath
        rw [hstart]
        rfl
      · obtain ⟨p, gp, hp, hgp, hlt⟩ := hchain c gc hc hg
        unfold reconPath
        rw [hp]
        show (reconPath came fuel p ++ [c]).head? = some start
        have hhead := ih p gp hgp (by omega)
        have hne := reconPath_ne_nil came fuel p
        cases hrec : reconPath came fuel p with
        | nil => exact absurd hrec hne
        | cons a t =>
            rw [hrec] at hhead
            simp only [List.cons_append, List.head?_cons] at hhead ⊢
            exact hhead

/-- One neighbour relaxation preserves the A* invariant. -/
theorem relaxNeighbor_inv (goal start current : Cube) (st : AStarState) (nb : Cube)
    (hInv : AStarInv start st) (hne : nb ≠ current)
    (hsum : nb.q + nb.r + nb.s = 0) :
    AStarInv start (relaxNeighbor goal current st nb) := by
  obtain ⟨hcs, hgs, hsums, hopen, hchain⟩ := hInv
  unfold relaxNeighbor
  split
  · exact ⟨hcs, hgs, hsums, hopen, hchain⟩
  next gc hgc =>
    simp only []
    by_cases hlt : ((gc + 1 : ℕ) : WithTop ℕ) < optTop (st.gmap nb)
    · rw [if_pos hlt]
      have hnbs : nb ≠ start := by
        intro h
        rw [h, hgs] at hlt
        simp only [optTop, Option.elim] at hlt
        have hlt' : ((gc + 1 : ℕ) : WithTop ℕ) < ((0 : ℕ) : WithTop ℕ) := hlt
        rw [Nat.cast_lt] at hlt'
        omega
      refine ⟨?_, ?_, ?_, ?_, ?_⟩
      · show (if start = nb then some current else st.came start) = none
        rw [if_neg (Ne.symm hnbs)]
        exact hcs
      · show (if start = nb then some (gc + 1) else st.gmap start) = some 0
        rw [if_neg (Ne.symm hnbs)]
        exact hgs
      · intro c hc
        simp only [] at hc
        by_cases h : c = nb
        · subst h; exact hsum
        · rw [if_neg h] at hc
          exact hsums c hc
      · intro c hc
        simp only [] at hc ⊢
        by_cases h : c = nb
        · subst h; simp
        · rw [if_neg h]
          split at hc
          · exact hopen c hc
          · rcases List.mem_append.mp hc with hc | hc
            · exact hopen c hc
            · simp at hc
              exact absurd hc h
      · intro c gcv hcs' hgc'
        simp only [] at hgc' ⊢
        by_cases h : c = nb
        · subst h
          rw [if_pos rfl] at hgc'
          cases hgc'
          refine ⟨current, gc, by rw [if_pos rfl], ?_, ?_⟩
          · rw [if_neg (Ne.symm hne)]
            exact hgc
          · omega
        · rw [if_neg h] at hgc'
          obtain ⟨p, gp, hp, hgp, hplt⟩ := hchain c gcv hcs' hgc'
          by_cases hpn : p = nb
          · subst hpn
            refine ⟨p, gc + 1, by rw [if_neg h]; exact hp, by rw [if_pos rfl], ?_⟩
            rw [hgp] at hlt
            simp only [optTop, Option.elim] at hlt
            have hlt' : ((gc + 1 : ℕ) : WithTop ℕ) < ((gp : ℕ) : WithTop ℕ) := hlt
            rw [Nat.cast_lt] at hlt'
            omega
          · exact ⟨p, gp, by rw [if_neg h]; exact hp, by rw [if_neg hpn]; exact hgp, hplt⟩
    · rw [if_neg hlt]
      exact ⟨hcs, hgs, hsums, hopen, hchain⟩

/-- Relaxing a whole neighbour list preserves the invariant. -/
theorem relax_fold_inv (goal start current : Cube) :
    ∀ (l : List Cube) (st : AStarState), AStarInv start st →
      (∀ nb ∈ l, nb ≠ current ∧ nb.q + nb.r + nb.s = 0) →
      AStarInv start (l.foldl (relaxNeighbor goal current) st) := by
  intro l
  induction l with
  | nil => intro st h _; exact h
  | cons a t ih =>
      intro st h hl
      simp only [List.foldl_cons]
      exact ih _ (relaxNeighbor_inv goal start current st a h (hl a (by simp)).1
        (hl a (by simp)).2) (fun nb hnb => hl nb (by simp [hnb]))

/-- The lowest-f scan returns an in-range index on a nonempty list. -/
theorem lowestFIdx_lt (fm : Cube → Option ℚ) (l : List Cube) (h : l ≠ []) :
    lowestFIdx fm l < l.length := by
  unfold lowestFIdx
  have hlen : 0 < l.length := List.length_pos.mpr h
  have key : ∀ (is : List ℕ) (acc : ℕ), (∀ i ∈ is, i < l.length) → acc < l.length →
      (is.foldl (fun idx i =>
        if optTop (fm (l.getD i ⟨0, 0, 0⟩)) < optTop (fm (l.getD idx ⟨0, 0, 0⟩))
        then i else idx) acc) < l.length := by
    intro is
    induction is with
    | nil => intro acc _ hacc; exact hacc
    | cons a t ih =>
        intro acc hmem hacc
        simp only [List.foldl_cons]
        apply ih
        · intro i hi
          exact hmem i (by simp [hi])
        · split
          · exact hmem a (by simp)
          · exact hacc
  exact key _ 0 (fun i hi => List.mem_range.mp hi) hlen

/-- When the A* loop reports a path, it runs from the seed to (a cube equal
to) the goal. -/
theorem hexAStarLoop_found (goal start : Cube) (hgoal : goal.q + goal.r + goal.s = 0) :
    ∀ (fuel : ℕ) (st : AStarState), AStarInv start st →
      ∀ cubes, hexAStarLoop goal fuel st = .found cubes →
        cubes ≠ [] ∧ cubes.head? = some start ∧ cubes.getLast? = some goal := by
  intro fuel
  induction fuel with
  | zero =>
      intro st _ cubes hc
      simp [hexAStarLoop] at hc
  | succ fuel ih =>
      intro st hInv cubes hc
      unfold hexAStarLoop at hc
      split at hc
      · simp at hc
      next hemp =>
        simp only [] at hc
        have hne_open : st.openList ≠ [] := by
          intro h
          rw [h] at hemp
          simp at hemp
        have hidxlt := lowestFIdx_lt st.fmap st.openList hne_open
        have hmem : st.openList.getD (lowestFIdx st.fmap st.openList) ⟨0, 0, 0⟩ ∈
            st.openList := by
          rw [List.getD_eq_getElem _ _ hidxlt]
          exact List.getElem_mem _
        have hsome := hInv.2.2.2.1 _ hmem
        obtain ⟨gc, hgc⟩ := Option.isSome_iff_exists.mp hsome
        have hsumc := hInv.2.2.1 _ hsome
        split at hc
        next hdist =>
          cases hc
          have hcurgoal := hexDistance_lt_one _ _ hsumc hgoal hdist
          refine ⟨reconPath_ne_nil _ _ _, ?_, ?_⟩
          · rw [hgc]
            exact reconPath_head start st.came st.gmap hInv.1 hInv.2.2.2.2 _ _ gc hgc
              (le_refl _)
          · rw [← hcurgoal]
            exact reconPath_getLast _ _ _
        next hdist =>
          refine ih _ ?_ cubes hc
          have hInv1 : AStarInv start
              { st with
                openList := st.openList.eraseIdx (lowestFIdx st.fmap st.openList) } :=
            ⟨hInv.1, hInv.2.1, hInv.2.2.1,
              fun c hc' => hInv.2.2.2.1 c ((List.eraseIdx_sublist _ _).subset hc'),
              hInv.2.2.2.2⟩
          refine relax_fold_inv goal start _ _ _ hInv1 ?_
          intro nb hnb
          obtain ⟨h1, h2⟩ := getHexNeighbors_spec _ nb hnb
          exact ⟨h1, by rw [h2]; exact hsumc⟩

/-- `hexAStar` either falls back to the raw endpoints (exhausted open list) or
returns a pixel path from the snapped start to the snapped end. -/
theorem hexAStar_spec (startW endW : Point) (size : ℝ) (fuel : ℕ) :
    ∀ pts, hexAStar startW endW size fuel = some pts →
      pts = [startW, endW] ∨
      (pts ≠ [] ∧
        pts.head? = some (cubeToPixel (pixelToCube startW.x startW.y size) size) ∧
        pts.getLast? = some (cubeToPixel (pixelToCube endW.x endW.y size) size)) := by
  intro pts hp
  unfold hexAStar at hp
  simp only [] at hp
  split at hp
  next cubes hfound =>
    cases hp
    have hInv0 : AStarInv (pixelToCube startW.x startW.y size)
        { openList := [pixelToCube startW.x startW.y size]
          came := fun _ => none
          gmap := fun c => if c = pixelToCube startW.x startW.y size then some 0 else none
          fmap := fun c => if c = pixelToCube startW.x startW.y size then
            some (hexDistance (pixelToCube startW.x startW.y size)
              (pixelToCube endW.x endW.y size)) else none } := by
      refine ⟨rfl, by simp, ?_, ?_, ?_⟩
      · intro c hcs
        by_cases h : c = pixelToCube startW.x startW.y size
        · subst h
          exact pixelToCube_sum _ _ _
        · simp [h] at hcs
      · intro c hcmem
        simp only [List.mem_singleton] at hcmem
        subst hcmem
        simp
      · intro c gc hne hg
        simp [hne] at hg
    obtain ⟨hne, hhead, hlast⟩ := hexAStarLoop_found (pixelToCube endW.x endW.y size)
      (pixelToCube startW.x startW.y size) (pixelToCube_sum _ _ _) fuel _ hInv0
      cubes hfound
    right
    refine ⟨by simpa using hne, ?_, ?_⟩
    · rw [List.head?_map, hhead]
      rfl
    · rw [List.getLast?_map, hlast]
      rfl
  next hfound =>
    cases hp
    left
    rfl
  next =>
    cases hp

/-- `roundCube` on exact integer coordinates returns them unchanged (the
third coordinate is recomputed from the first two). -/
theorem roundCube_intCast (a b : ℤ) (z : ℝ) (hz : z = ((-a - b : ℤ) : ℝ)) :
    roundCube (a : ℝ) (b : ℝ) z = ⟨a, b, -a - b⟩ := by
  subst hz
  unfold roundCube
  simp [round_intCast]

/-- Snapping is exact on lattice points: `pixelToCube` undoes `cubeToPixel`
for any lattice cube and nonzero cell size. -/
theorem pixelToCube_cubeToPixel (c : Cube) (size : ℝ) (hsize : size ≠ 0)
    (hc : c.q + c.r + c.s = 0) :
    pixelToCube (cubeToPixel c size).x (cubeToPixel c size).y size = c := by
  have hx : (cubeToPixel c size).x = size * (1.5 * (c.q : ℝ)) := rfl
  have hy : (cubeToPixel c size).y =
      size * (Real.sqrt 3 / 2 * (c.q : ℝ) + Real.sqrt 3 * (c.r : ℝ)) := rfl
  have key : Real.sqrt 3 ^ 2 = 3 := Real.sq_sqrt (by norm_num)
  have hq : (2 : ℝ) / 3 * ((cubeToPixel c size).x / size) = ((c.q : ℤ) : ℝ) := by
    rw [hx, mul_div_cancel_left₀ _ hsize]
    push_cast
    ring
  have hr : (-1 : ℝ) / 3 * ((cubeToPixel c size).x / size) +
      Real.sqrt 3 / 3 * ((cubeToPixel c size).y / size) = ((c.r : ℤ) : ℝ) := by
    rw [hx, hy, mul_div_cancel_left₀ _ hsize, mul_div_cancel_left₀ _ hsize]
    push_cast
    linear_combination ((c.q : ℝ) / 6 + (c.r : ℝ) / 3) * key
  unfold pixelToCube
  simp only []
  rw [hq, hr]
  rw [roundCube_intCast _ _ _ (by push_cast; ring)]
  cases c with
  | mk q r s =>
      simp only [] at hc
      simp only [Cube.mk.injEq, true_and]
      omega

/-- Pointwise coordinate equality of points is equality. -/
theorem Point.ext_xy {p q : Point} (hx : p.x = q.x) (hy : p.y = q.y) : p = q := by
  cases p
  cases q
  simp only [] at hx hy
  rw [hx, hy]

/-- Dropping consecutive duplicates keeps the first point. -/
theorem dedup_head_aux : ∀ (n : ℕ) (l : List Point), l.length ≤ n →
    (dedupConsecutive l).head? = l.head? := by
  intro n
  induction n with
  | zero =>
      intro l hl
      have hnil : l = [] := List.length_eq_zero.mp (by omega)
      subst hnil
      simp [dedupConsecutive]
  | succ n ih =>
      intro l hl
      match l with
      | [] => simp [dedupConsecutive]
      | [p] => simp [dedupConsecutive]
      | p :: q :: rest =>
          rw [dedupConsecutive]
          split
          · rw [ih (p :: rest) (by simp at hl ⊢; omega)]
            rfl
          · rfl

/-- Dropping consecutive duplicates keeps the last point. -/
theorem dedup_getLast_aux : ∀ (n : ℕ) (l : List Point), l.length ≤ n →
    (dedupConsecutive l).getLast? = l.getLast? := by
  intro n
  induction n with
  | zero =>
      intro l hl
      have hnil : l = [] := List.length_eq_zero.mp (by omega)
      subst hnil
      simp [dedupConsecutive]
  | succ n ih =>
      intro l hl
      match l with
      | [] => simp [dedupConsecutive]
      | [p] => simp [dedupConsecutive]
      | p :: q :: rest =>
          rw [dedupConsecutive]
          split
          next hpq =>
            have hpq' : p = q := Point.ext_xy hpq.1 hpq.2
            rw [ih (p :: rest) (by simp at hl ⊢; omega)]
            subst hpq'
            rw [List.getLast?_cons_cons]
          next hpq =>
            have hh := dedup_head_aux n (q :: rest) (by simp at hl ⊢; omega)
            have hne : dedupConsecutive (q :: rest) ≠ [] := by
              intro h0
              rw [h0] at hh
              cases hh
            cases hL : dedupConsecutive (q :: rest) with
            | nil => exact absurd hL hne
            | cons a t =>
                rw [List.getLast?_cons_cons]
                rw [show (a :: t).getLast? = (dedupConsecutive (q :: rest)).getLast?
                  from by rw [hL]]
                rw [ih (q :: rest) (by simp at hl ⊢; omega)]
                rw [List.getLast?_cons_cons]

/-- A list whose first and last entries differ has at least two entries. -/
theorem two_le_length_of_head_last {α : Type} (l : List α) (a b : α)
    (ha : l.head? = some a) (hb : l.getLast? = some b) (hne : a ≠ b) :
    2 ≤ l.length := by
  match l with
  | [] => cases ha
  | [x] =>
      have ha' : some x = some a := by simpa using ha
      have hb' : some x = some b := by simpa using hb
      cases ha'
      cases hb'
      exact absurd rfl hne
  | x :: y :: t => simp

/-- Claim C4, amended: for every pair of endpoints and nonzero cell size, when
`createHexPath` returns (fuel does not run out) it returns a nonempty point
sequence whose first point is the hex-vertex snap of the first endpoint and
whose last point is the snap of the second; the sequence has at least 2
points whenever the two snapped endpoints differ, but collapses to a single
point when both endpoints snap to the same lattice vertex. -/
theorem createHexPath_endpoints (ax ay bx byv size : ℝ) (fuel : ℕ) (hsize : size ≠ 0) :
    ∀ pts, createHexPath ax ay bx byv size fuel = some pts →
      pts ≠ [] ∧ pts.head? = some (snapToHexVertex ax ay size) ∧
        pts.getLast? = some (snapToHexVertex bx byv size) ∧
        (snapToHexVertex ax ay size ≠ snapToHexVertex bx byv size → 2 ≤ pts.length) := by
  intro pts hp
  unfold createHexPath at hp
  simp only [Option.map_eq_some'] at hp
  obtain ⟨path, hA, hf⟩ := hp
  have hsnapA : pixelToCube (snapToHexVertex ax ay size).x (snapToHexVertex ax ay size).y
      size = pixelToCube ax ay size :=
    pixelToCube_cubeToPixel _ size hsize (pixelToCube_sum _ _ _)
  have hsnapB : pixelToCube (snapToHexVertex bx byv size).x
      (snapToHexVertex bx byv size).y size = pixelToCube bx byv size :=
    pixelToCube_cubeToPixel _ size hsize (pixelToCube_sum _ _ _)
  rcases hexAStar_spec _ _ _ _ path hA with hfall | ⟨hne, hhead, hlast⟩
  · subst hfall
    rw [if_neg (by simp)] at hf
    subst hf
    have hd := dedup_head_aux ([snapToHexVertex ax ay size,
      snapToHexVertex bx byv size].length) _ (le_refl _)
    have hg := dedup_getLast_aux ([snapToHexVertex ax ay size,
      snapToHexVertex bx byv size].length) _ (le_refl _)
    refine ⟨?_, ?_, ?_, ?_⟩
    · intro h0
      rw [h0] at hd
      cases hd
    · rw [hd]
      rfl
    · rw [hg, List.getLast?_cons_cons]
      rfl
    · intro hne2
      refine two_le_length_of_head_last _ _ _ ?_ ?_ hne2
      · rw [hd]
        rfl
      · rw [hg, List.getLast?_cons_cons]
        rfl
  · have hhead' : path.head? = some (snapToHexVertex ax ay size) := by
      rw [hhead, hsnapA]
      rfl
    have hlast' : path.getLast? = some (snapToHexVertex bx byv size) := by
      rw [hlast, hsnapB]
      rfl
    rw [if_neg (by simpa using hne)] at hf
    subst hf
    have hd := dedup_head_aux path.length _ (le_refl _)
    have hg := dedup_getLast_aux path.length _ (le_refl _)
    refine ⟨?_, ?_, ?_, ?_⟩
    · intro h0
      rw [h0, hhead'] at hd
      cases hd
    · rw [hd, hhead']
    · rw [hg, hlast']
    · intro hne2
      exact two_le_length_of_head_last _ _ _ (by rw [hd, hhead']) (by rw [hg, hlast']) hne2

/-- On a singleton open list the lowest-f scan picks index 0. -/
theorem lowestFIdx_single (fm : Cube → Option ℚ) (c : Cube) : lowestFIdx fm [c] = 0 := by
  unfold lowestFIdx
  rw [show List.range [c].length = [0] from rfl]
  simp only [List.foldl_cons, List.foldl_nil]
  split <;> rfl

/-- The origin of the hex lattice is its own nearest vertex. -/
theorem c4_cube0 : pixelToCube 0 0 1 = ⟨0, 0, 0⟩ := by
  unfold pixelToCube
  simp only []
  rw [show (2 : ℝ) / 3 * ((0 : ℝ) / 1) = ((0 : ℤ) : ℝ) by norm_num]
  rw [show (-1 : ℝ) / 3 * ((0 : ℝ) / 1) + Real.sqrt 3 / 3 * ((0 : ℝ) / 1) = ((0 : ℤ) : ℝ)
    by norm_num]
  rw [roundCube_intCast _ _ _ (by push_cast; ring)]
  decide

/-- The hex distance from a cube to itself is zero. -/
theorem hexDistance_self0 : hexDistance ⟨0, 0, 0⟩ ⟨0, 0, 0⟩ = 0 := by
  unfold hexDistance
  norm_num

/-- Full evaluation of `createHexPath` on coincident endpoints: the A* goal
test fires on the popped seed immediately and the reconstructed path is the
single lattice vertex. -/
theorem c4_eval : createHexPath 0 0 0 0 1 1 = some [cubeToPixel ⟨0, 0, 0⟩ 1] := by
  have hsnap : snapToHexVertex 0 0 1 = cubeToPixel (⟨0, 0, 0⟩ : Cube) 1 := by
    unfold snapToHexVertex
    rw [c4_cube0]
  have hstart : pixelToCube (snapToHexVertex 0 0 1).x (snapToHexVertex 0 0 1).y 1 =
      (⟨0, 0, 0⟩ : Cube) := by
    rw [hsnap]
    exact pixelToCube_cubeToPixel _ _ (by norm_num) (by decide)
  have hloop : hexAStarLoop ⟨0, 0, 0⟩ 1
      { openList := [(⟨0, 0, 0⟩ : Cube)]
        came := fun _ => none
        gmap := fun c => if c = (⟨0, 0, 0⟩ : Cube) then some 0 else none
        fmap := fun c => if c = (⟨0, 0, 0⟩ : Cube) then
          some (hexDistance ⟨0, 0, 0⟩ ⟨0, 0, 0⟩) else none } =
      .found [⟨0, 0, 0⟩] := by
    unfold hexAStarLoop
    rw [if_neg (show ¬([(⟨0, 0, 0⟩ : Cube)].isEmpty = true) by decide)]
    simp only []
    rw [lowestFIdx_single]
    rw [show ([(⟨0, 0, 0⟩ : Cube)].getD 0 ⟨0, 0, 0⟩) = (⟨0, 0, 0⟩ : Cube) from rfl]
    rw [if_pos (show hexDistance ⟨0, 0, 0⟩ ⟨0, 0, 0⟩ < 1 by rw [hexDistance_self0]; norm_num)]
    rfl
  have hA : hexAStar (snapToHexVertex 0 0 1) (snapToHexVertex 0 0 1) 1 1 =
      some [cubeToPixel ⟨0, 0, 0⟩ 1] := by
    unfold hexAStar
    simp only [hstart]
    rw [hloop]
    rfl
  unfold createHexPath
  simp only [hA]
  simp [dedupConsecutive]

/-- Claim C4, counterexample: the finite, non-NaN endpoint pair (0,0)–(0,0)
with positive cell size 1 makes `createHexPath` return a single-point
sequence, refuting the claimed "at least 2 points" for every endpoint pair. -/
theorem createHexPath_single_point :
    (createHexPath 0 0 0 0 1 1).map List.length = some 1 ∧ (0 : ℝ) < 1 := by
  rw [c4_eval]
  exact ⟨rfl, by norm_num⟩

/-- Witness for the amended endpoint theorem at the coincident-endpoint
instance. -/
theorem createHexPath_endpoints_witness :
    [cubeToPixel ⟨0, 0, 0⟩ 1] ≠ [] ∧
      [cubeToPixel ⟨0, 0, 0⟩ 1].head? = some (snapToHexVertex 0 0 1) ∧
      [cubeToPixel ⟨0, 0, 0⟩ 1].getLast? = some (snapToHexVertex 0 0 1) ∧
      (snapToHexVertex 0 0 1 ≠ snapToHexVertex 0 0 1 →
        2 ≤ [cubeToPixel ⟨0, 0, 0⟩ 1].length) :=
  createHexPath_endpoints 0 0 0 0 1 1 (by norm_num) [cubeToPixel ⟨0, 0, 0⟩ 1] c4_eval

/-- `lineAdjacent` is symmetric. -/
theorem lineAdjacent_symm (g : Game) (a b : ℕ) (h : lineAdjacent g a b = true) :
    lineAdjacent g b a = true := by
  unfold lineAdjacent at h ⊢
  simp only [List.any_eq_true] at h ⊢
  obtain ⟨l, hl, p, hp, hpair⟩ := h
  refine ⟨l, hl, p, hp, ?_⟩
  simp only [Bool.or_eq_true, Bool.and_eq_true] at hpair ⊢
  tauto

/-- Under the id-bound hypothesis, adjacency only holds between real station
indices. -/
theorem lineAdjacent_lt (g : Game) (a b : ℕ)
    (hids : ∀ l ∈ g.lines, ∀ si ∈ l.stations, si < g.stations.length)
    (h : lineAdjacent g a b = true) :
    a < g.stations.length ∧ b < g.stations.length := by
  unfold lineAdjacent at h
  simp only [List.any_eq_true] at h
  obtain ⟨l, hl, p, hp, hpair⟩ := h
  have hp1 : p.1 ∈ l.stations := (List.of_mem_zip hp).1
  have hp2 : p.2 ∈ l.stations.tail := (List.of_mem_zip hp).2
  have hp2' : p.2 ∈ l.stations := List.mem_of_mem_tail hp2
  have h1 := hids l hl p.1 hp1
  have h2 := hids l hl p.2 hp2'
  simp only [Bool.or_eq_true, Bool.and_eq_true, decide_eq_true_eq] at hpair
  rcases hpair with ⟨ha, hb⟩ | ⟨ha, hb⟩ <;> omega

/-- Membership in the neighbour list. -/
theorem mem_stationNeighbors (g : Game) (u v : ℕ) :
    v ∈ stationNeighbors g u ↔ v < g.stations.length ∧ lineAdjacent g u v = true := by
  unfold stationNeighbors
  simp [List.mem_filter, List.mem_range]

/-- The spec value is a lower bound of every concrete path cost. -/
theorem etaSpec_le_pathCost (g : Game) (dest v : ℕ) (P : List ℕ)
    (hP : IsPathTo g dest v P) : etaSpec g dest v ≤ pathCost g dest v P :=
  iInf_le (fun l : { l : List ℕ // IsPathTo g dest v l } => pathCost g dest v l.1) ⟨P, hP⟩

/-- The nil path gives the spec value 0 at the destination. -/
theorem etaSpec_dest (g : Game) (dest : ℕ) : etaSpec g dest dest = 0 :=
  le_antisymm (etaSpec_le_pathCost g dest dest [] rfl) (zero_le _)

/-- No path leaves a station index out of range, so the spec value is `⊤`. -/
theorem etaSpec_out_of_range (g : Game) (dest v : ℕ)
    (hids : ∀ l ∈ g.lines, ∀ si ∈ l.stations, si < g.stations.length)
    (hdest : dest < g.stations.length) (hv : g.stations.length ≤ v) :
    etaSpec g dest v = ⊤ := by
  rw [etaSpec, iInf_eq_top]
  rintro ⟨P, hP⟩
  exfalso
  match P, hP with
  | [], hP =>
    have hveq : v = dest := hP
    omega
  | w :: rest, hP => exact absurd ((lineAdjacent_lt g v w hids hP.1).1) (by omega)

/-- The triangle inequality for the spec value along one adjacency hop. -/
theorem etaSpec_triangle (g : Game) (dest v u : ℕ) (hadj : lineAdjacent g v u = true) :
    etaSpec g dest v ≤
      edgeTimeMs g v u + nodeTransferMs g u dest + etaSpec g dest u := by
  conv_rhs => rw [etaSpec]
  rw [ENNReal.add_iInf]
  exact le_iInf fun ⟨P, hP⟩ => etaSpec_le_pathCost g dest v (u :: P) ⟨hadj, hP⟩

/-- Monotonicity of the argmin fold: the final candidate never has a larger
tentative ETA than the incoming candidate. -/
theorem pickStep_mono (visited : ℕ → Bool) (eta : ℕ → ℝ≥0∞) :
    ∀ (l : List ℕ) (a u : ℕ),
      l.foldl (pickStep visited eta) (some a) = some u → eta u ≤ eta a := by
  intro l
  induction l with
  | nil =>
    intro a u h
    have h' : some a = some u := h
    rw [Option.some.inj h']
  | cons i l ih =>
    intro a u h
    simp only [List.foldl_cons] at h
    by_cases hc : visited i = false ∧ eta i < eta a
    · have hstep : pickStep visited eta (some a) i = some i := by
        simp [pickStep, hc]
      rw [hstep] at h
      exact le_trans (ih i u h) (le_of_lt hc.2)
    · have hstep : pickStep visited eta (some a) i = some a := by
        simp only [pickStep, if_neg hc]
      rw [hstep] at h
      exact ih a u h

/-- Minimality of the argmin fold over every unvisited scanned index. -/
theorem pickStep_min (visited : ℕ → Bool) (eta : ℕ → ℝ≥0∞) :
    ∀ (l : List ℕ) (acc : Option ℕ) (u : ℕ),
      l.foldl (pickStep visited eta) acc = some u →
      ∀ i ∈ l, visited i = false → eta u ≤ eta i := by
  intro l
  induction l with
  | nil =>
    intro acc u _ i hi
    exact absurd hi (List.not_mem_nil i)
  | cons j l ih =>
    intro acc u h i hi hvi
    simp only [List.foldl_cons] at h
    rcases List.mem_cons.mp hi with rfl | hil
    · cases acc with
      | none =>
        by_cases hc : eta i < ⊤
        · have hstep : pickStep visited eta none i = some i := by
            simp [pickStep, hvi, hc]
          rw [hstep] at h
          exact pickStep_mono visited eta l i u h
        · rw [top_le_iff.mp (not_lt.mp hc)]
          exact le_top
      | some a =>
        by_cases hc : eta i < eta a
        · have hstep : pickStep visited eta (some a) i = some i := by
            simp [pickStep, hvi, hc]
          rw [hstep] at h
          exact pickStep_mono visited eta l i u h
        · have hstep : pickStep visited eta (some a) i = some a := by
            simp only [pickStep]
            rw [if_neg]
            rintro ⟨-, hlt⟩
            exact hc hlt
          rw [hstep] at h
          exact le_trans (pickStep_mono visited eta l a u h) (not_lt.mp hc)
    · exact ih _ u h i hil hvi

/-- The argmin fold only produces unvisited indices drawn from the scanned
list or the incoming candidate. -/
theorem pickStep_mem (visited : ℕ → Bool) (eta : ℕ → ℝ≥0∞) :
    ∀ (l : List ℕ) (acc : Option ℕ) (u : ℕ),
      (∀ a, acc = some a → visited a = false) →
      l.foldl (pickStep visited eta) acc = some u →
      visited u = false ∧ (u ∈ l ∨ acc = some u) := by
  intro l
  induction l with
  | nil =>
    intro acc u hacc h
    have h' : acc = some u := h
    exact ⟨hacc u h', Or.inr h'⟩
  | cons j l ih =>
    intro acc u hacc h
    simp only [List.foldl_cons] at h
    have hacc' : ∀ a, pickStep visited eta acc j = some a →
        visited a = false ∧ (a = j ∨ acc = some a) := by
      intro a ha
      cases acc with
      | none =>
        by_cases hc : visited j = false ∧ eta j < ⊤
        · rw [show pickStep visited eta none j = some j from by simp [pickStep, hc]] at ha
          rw [← Option.some.inj ha]
          exact ⟨hc.1, Or.inl rfl⟩
        · rw [show pickStep visited eta none j = none from by simp only [pickStep, if_neg hc]] at ha
          exact Option.noConfusion ha
      | some b =>
        by_cases hc : visited j = false ∧ eta j < eta b
        · rw [show pickStep visited eta (some b) j = some j from by simp [pickStep, hc]] at ha
          rw [← Option.some.inj ha]
          exact ⟨hc.1, Or.inl rfl⟩
        · rw [show pickStep visited eta (some b) j = some b from by
              simp only [pickStep, if_neg hc]] at ha
          rw [← Option.some.inj ha]
          exact ⟨hacc b rfl, Or.inr rfl⟩
    obtain ⟨hu, hmem⟩ := ih (pickStep visited eta acc j) u (fun a ha => (hacc' a ha).1) h
    refine ⟨hu, ?_⟩
    rcases hmem with hul | hacc_eq
    · exact Or.inl (List.mem_cons_of_mem j hul)
    · rcases (hacc' u hacc_eq).2 with rfl | h2
      · exact Or.inl (List.mem_cons_self u l)
      · exact Or.inr h2

/-- When the argmin fold yields nothing, it started empty and every unvisited
scanned entry is infinite. -/
theorem pickStep_none (visited : ℕ → Bool) (eta : ℕ → ℝ≥0∞) :
    ∀ (l : List ℕ) (acc : Option ℕ),
      l.foldl (pickStep visited eta) acc = none →
      acc = none ∧ ∀ i ∈ l, visited i = false → eta i = ⊤ := by
  intro l
  induction l with
  | nil =>
    intro acc h
    exact ⟨h, fun i hi => absurd hi (List.not_mem_nil i)⟩
  | cons j l ih =>
    intro acc h
    simp only [List.foldl_cons] at h
    obtain ⟨hstep_none, hrest⟩ := ih _ h
    cases acc with
    | some b =>
      exfalso
      by_cases hc : visited j = false ∧ eta j < eta b
      · rw [show pickStep visited eta (some b) j = some j from by
            simp [pickStep, hc]] at hstep_none
        exact Option.noConfusion hstep_none
      · rw [show pickStep visited eta (some b) j = some b from by
            simp only [pickStep, if_neg hc]] at hstep_none
        exact Option.noConfusion hstep_none
    | none =>
      refine ⟨rfl, ?_⟩
      intro i hi hvi
      rcases List.mem_cons.mp hi with rfl | hil
      · by_contra hne
        have hc : visited i = false ∧ eta i < ⊤ := ⟨hvi, lt_top_iff_ne_top.mpr hne⟩
        rw [show pickStep visited eta none i = some i from by
            simp [pickStep, hc]] at hstep_none
        exact Option.noConfusion hstep_none
      · exact hrest i hil hvi

/-- Specification of `pickMin` on success: unvisited, in range, minimal. -/
theorem pickMin_some_spec (N : ℕ) (visited : ℕ → Bool) (eta : ℕ → ℝ≥0∞) (u : ℕ)
    (h : pickMin N visited eta = some u) :
    visited u = false ∧ u < N ∧ ∀ i, i < N → visited i = false → eta u ≤ eta i := by
  have h' : (List.range N).foldl (pickStep visited eta) none = some u := h
  obtain ⟨hu, hmem⟩ := pickStep_mem visited eta (List.range N) none u
    (fun a ha => Option.noConfusion ha) h'
  refine ⟨hu, ?_, ?_⟩
  · rcases hmem with hm | hn
    · exact List.mem_range.mp hm
    · exact Option.noConfusion hn
  · intro i hi hvi
    exact pickStep_min visited eta (List.range N) none u h' i (List.mem_range.mpr hi) hvi

/-- Specification of `pickMin` on failure: every unvisited in-range tentative
ETA is infinite. -/
theorem pickMin_none_spec (N : ℕ) (visited : ℕ → Bool) (eta : ℕ → ℝ≥0∞)
    (h : pickMin N visited eta = none) :
    ∀ i, i < N → visited i = false → eta i = ⊤ := by
  have h' : (List.range N).foldl (pickStep visited eta) none = none := h
  intro i hi hvi
  exact (pickStep_none visited eta (List.range N) none h').2 i (List.mem_range.mpr hi) hvi

/-- One write of the relaxation never lowers the entry of the popped node
itself (the candidate cost routes through that very entry). -/
theorem relaxFun_u (g : Game) (dest u v : ℕ) (eta : ℕ → ℝ≥0∞) :
    (if u = v ∧ edgeTimeMs g v u + nodeTransferMs g u dest + eta u < eta v
      then edgeTimeMs g v u + nodeTransferMs g u dest + eta u else eta u) = eta u := by
  by_cases hc : u = v ∧ edgeTimeMs g v u + nodeTransferMs g u dest + eta u < eta v
  · obtain ⟨huv, hlt⟩ := hc
    rw [← huv] at hlt
    exact absurd hlt (not_lt.mpr le_add_self)
  · exact if_neg hc

/-- The relaxation leaves the popped node's entry unchanged. -/
theorem relaxList_u (g : Game) (dest u : ℕ) :
    ∀ (l : List ℕ) (eta : ℕ → ℝ≥0∞), relaxList g dest u l eta u = eta u := by
  intro l
  induction l with
  | nil => intro eta; rfl
  | cons v l ih =>
    intro eta
    simp only [relaxList]
    rw [ih]
    exact relaxFun_u g dest u v eta

/-- The relaxation never increases any entry. -/
theorem relaxList_le (g : Game) (dest u : ℕ) :
    ∀ (l : List ℕ) (eta : ℕ → ℝ≥0∞) (x : ℕ), relaxList g dest u l eta x ≤ eta x := by
  intro l
  induction l with
  | nil => intro eta x; exact le_refl _
  | cons v l ih =>
    intro eta x
    simp only [relaxList]
    refine le_trans (ih _ x) ?_
    by_cases hc : x = v ∧ edgeTimeMs g v u + nodeTransferMs g u dest + eta u < eta v
    · obtain ⟨hxv, hlt⟩ := hc
      rw [if_pos ⟨hxv, hlt⟩, hxv]
      exact le_of_lt hlt
    · rw [if_neg hc]

/-- Each entry after the relaxation is either untouched or the candidate cost
through the popped node (only list members are touched). -/
theorem relaxList_cases (g : Game) (dest u : ℕ) :
    ∀ (l : List ℕ) (eta : ℕ → ℝ≥0∞) (x : ℕ),
      relaxList g dest u l eta x = eta x ∨
        (x ∈ l ∧ relaxList g dest u l eta x =
          edgeTimeMs g x u + nodeTransferMs g u dest + eta u) := by
  intro l
  induction l with
  | nil => intro eta x; exact Or.inl rfl
  | cons v l ih =>
    intro eta x
    simp only [relaxList]
    rcases ih (fun y => if y = v ∧ edgeTimeMs g v u + nodeTransferMs g u dest + eta u < eta v
        then edgeTimeMs g v u + nodeTransferMs g u dest + eta u else eta y) x with h | ⟨hx, h⟩
    · rw [h]
      by_cases hc : x = v ∧ edgeTimeMs g v u + nodeTransferMs g u dest + eta u < eta v
      · refine Or.inr ⟨?_, ?_⟩
        · rw [hc.1]; exact List.mem_cons_self v l
        · rw [if_pos hc, hc.1]
      · rw [if_neg hc]
        exact Or.inl rfl
    · rw [h]
      refine Or.inr ⟨List.mem_cons_of_mem v hx, ?_⟩
      rw [relaxFun_u g dest u v eta]

/-- After the relaxation, every listed neighbour is bounded by the candidate
cost through the popped node. -/
theorem relaxList_bound (g : Game) (dest u : ℕ) :
    ∀ (l : List ℕ) (eta : ℕ → ℝ≥0∞) (v : ℕ), v ∈ l →
      relaxList g dest u l eta v ≤
        edgeTimeMs g v u + nodeTransferMs g u dest + eta u := by
  intro l
  induction l with
  | nil =>
    intro eta v hv
    exact absurd hv (List.not_mem_nil v)
  | cons w l ih =>
    intro eta v hv
    simp only [relaxList]
    rcases List.mem_cons.mp hv with rfl | hvl
    · refine le_trans (relaxList_le g dest u l _ v) ?_
      by_cases hc : v = v ∧ edgeTimeMs g v u + nodeTransferMs g u dest + eta u < eta v
      · rw [if_pos hc]
      · rw [if_neg hc]
        have : ¬edgeTimeMs g v u + nodeTransferMs g u dest + eta u < eta v := by
          intro hlt
          exact hc ⟨rfl, hlt⟩
        exact not_lt.mp this
    · refine le_trans (ih _ v hvl) ?_
      rw [relaxFun_u g dest u w eta]

/-- Pop correctness, path form: under the invariant, the entry of a minimal
unvisited node is a lower bound of the cost of every path that starts at an
unvisited in-range node. -/
theorem dijkstra_path_bound (g : Game) (dest : ℕ)
    (hids : ∀ l ∈ g.lines, ∀ si ∈ l.stations, si < g.stations.length)
    (hdest : dest < g.stations.length) (st : ETAState) (u : ℕ)
    (hinv : DijkstraInv g dest st)
    (hmin : ∀ i, i < g.stations.length → st.visited i = false → st.eta u ≤ st.eta i) :
    ∀ (P : List ℕ) (v : ℕ), IsPathTo g dest v P → v < g.stations.length →
      st.visited v = false → st.eta u ≤ pathCost g dest v P := by
  intro P
  induction P with
  | nil =>
    intro v hP hvN hvF
    have hveq : v = dest := hP
    have h1 : st.eta u ≤ st.eta v := hmin v hvN hvF
    rw [hveq, hinv.2.2.2.1] at h1
    show st.eta u ≤ 0
    exact h1
  | cons w rest ih =>
    intro v hP hvN hvF
    have hP' : lineAdjacent g v w = true ∧ IsPathTo g dest w rest := hP
    obtain ⟨hadj, hrest⟩ := hP'
    show st.eta u ≤ edgeTimeMs g v w + nodeTransferMs g w dest + pathCost g dest w rest
    cases hw : st.visited w with
    | true =>
      have hetaw : st.eta w = etaSpec g dest w := hinv.1 w hw
      calc st.eta u ≤ st.eta v := hmin v hvN hvF
        _ ≤ edgeTimeMs g v w + nodeTransferMs g w dest + st.eta w :=
            hinv.2.2.1 w v hw hadj hvN
        _ ≤ edgeTimeMs g v w + nodeTransferMs g w dest + pathCost g dest w rest := by
            rw [hetaw]
            exact add_le_add_left (etaSpec_le_pathCost g dest w rest hrest) _
    | false =>
      have hwN : w < g.stations.length := (lineAdjacent_lt g v w hids hadj).2
      calc st.eta u ≤ pathCost g dest w rest := ih w hrest hwN hw
        _ ≤ edgeTimeMs g v w + nodeTransferMs g w dest + pathCost g dest w rest :=
            le_add_self

/-- Pop correctness: the entry of the node popped by `pickMin` already equals
the spec value. -/
theorem dijkstra_pop_exact (g : Game) (dest : ℕ)
    (hids : ∀ l ∈ g.lines, ∀ si ∈ l.stations, si < g.stations.length)
    (hdest : dest < g.stations.length) (st : ETAState) (u : ℕ)
    (hinv : DijkstraInv g dest st)
    (hpick : pickMin g.stations.length st.visited st.eta = some u) :
    st.eta u = etaSpec g dest u := by
  obtain ⟨huF, huN, hmin⟩ := pickMin_some_spec g.stations.length st.visited st.eta u hpick
  refine le_antisymm ?_ (hinv.2.1 u)
  rw [etaSpec]
  exact le_iInf fun p =>
    dijkstra_path_bound g dest hids hdest st u hinv hmin p.1 u p.2 huN huF

/-- One Dijkstra iteration preserves the loop invariant. -/
theorem dijkstraStep_preserves (g : Game) (dest : ℕ)
    (hids : ∀ l ∈ g.lines, ∀ si ∈ l.stations, si < g.stations.length)
    (hdest : dest < g.stations.length) (st : ETAState) (u : ℕ)
    (hinv : DijkstraInv g dest st)
    (hpick : pickMin g.stations.length st.visited st.eta = some u) :
    DijkstraInv g dest
      { visited := fun x => if x = u then true else st.visited x,
        eta := relaxList g dest u (stationNeighbors g u) st.eta } := by
  obtain ⟨huF, huN, hmin⟩ := pickMin_some_spec g.stations.length st.visited st.eta u hpick
  have hueq : st.eta u = etaSpec g dest u :=
    dijkstra_pop_exact g dest hids hdest st u hinv hpick
  have hfix_u : relaxList g dest u (stationNeighbors g u) st.eta u = st.eta u :=
    relaxList_u g dest u (stationNeighbors g u) st.eta
  have hle : ∀ x, relaxList g dest u (stationNeighbors g u) st.eta x ≤ st.eta x :=
    fun x => relaxList_le g dest u (stationNeighbors g u) st.eta x
  have hcases := fun x => relaxList_cases g dest u (stationNeighbors g u) st.eta x
  have hfix_vis : ∀ w, st.visited w = true →
      relaxList g dest u (stationNeighbors g u) st.eta w = st.eta w := by
    intro w hw
    rcases hcases w with h | ⟨hmem, h⟩
    · exact h
    · have hadj : lineAdjacent g u w = true := ((mem_stationNeighbors g u w).mp hmem).2
      have htri : etaSpec g dest w ≤
          edgeTimeMs g w u + nodeTransferMs g u dest + etaSpec g dest u :=
        etaSpec_triangle g dest w u (lineAdjacent_symm g u w hadj)
      have hge : st.eta w ≤ edgeTimeMs g w u + nodeTransferMs g u dest + st.eta u := by
        rw [hinv.1 w hw, hueq]
        exact htri
      have h1 : edgeTimeMs g w u + nodeTransferMs g u dest + st.eta u ≤ st.eta w := by
        rw [← h]
        exact hle w
      rw [h]
      exact le_antisymm h1 hge
  unfold DijkstraInv
  refine ⟨?_, ?_, ?_, ?_, ?_⟩
  · intro w hw
    have hw' : (if w = u then true else st.visited w) = true := hw
    show relaxList g dest u (stationNeighbors g u) st.eta w = etaSpec g dest w
    by_cases hwu : w = u
    · rw [hwu, hfix_u, hueq]
    · rw [if_neg hwu] at hw'
      rw [hfix_vis w hw', hinv.1 w hw']
  · intro v
    show etaSpec g dest v ≤ relaxList g dest u (stationNeighbors g u) st.eta v
    rcases hcases v with h | ⟨hmem, h⟩
    · rw [h]
      exact hinv.2.1 v
    · rw [h]
      have hadj : lineAdjacent g u v = true := ((mem_stationNeighbors g u v).mp hmem).2
      calc etaSpec g dest v
          ≤ edgeTimeMs g v u + nodeTransferMs g u dest + etaSpec g dest u :=
            etaSpec_triangle g dest v u (lineAdjacent_symm g u v hadj)
        _ = edgeTimeMs g v u + nodeTransferMs g u dest + st.eta u := by rw [hueq]
  · intro w v hw hadj hvN
    have hw' : (if w = u then true else st.visited w) = true := hw
    show relaxList g dest u (stationNeighbors g u) st.eta v ≤
      edgeTimeMs g v w + nodeTransferMs g w dest +
        relaxList g dest u (stationNeighbors g u) st.eta w
    by_cases hwu : w = u
    · subst hwu
      rw [hfix_u]
      have hmemv : v ∈ stationNeighbors g w :=
        (mem_stationNeighbors g w v).mpr ⟨hvN, lineAdjacent_symm g v w hadj⟩
      exact relaxList_bound g dest w (stationNeighbors g w) st.eta v hmemv
    · rw [if_neg hwu] at hw'
      rw [hfix_vis w hw']
      exact le_trans (hle v) (hinv.2.2.1 w v hw' hadj hvN)
  · show relaxList g dest u (stationNeighbors g u) st.eta dest = 0
    have h1 : relaxList g dest u (stationNeighbors g u) st.eta dest ≤ 0 :=
      le_trans (hle dest) (le_of_eq hinv.2.2.2.1)
    exact le_antisymm h1 (zero_le _)
  · intro v hvN
    show relaxList g dest u (stationNeighbors g u) st.eta v = ⊤
    rcases hcases v with h | ⟨hmem, h⟩
    · rw [h]
      exact hinv.2.2.2.2 v hvN
    · have hlt : v < g.stations.length := ((mem_stationNeighbors g u v).mp hmem).1
      omega

/-- When `pickMin` fails, the table is already exact everywhere: every
unvisited in-range node is unreachable. -/
theorem dijkstra_none_exact (g : Game) (dest : ℕ)
    (hids : ∀ l ∈ g.lines, ∀ si ∈ l.stations, si < g.stations.length)
    (hdest : dest < g.stations.length) (st : ETAState)
    (hinv : DijkstraInv g dest st)
    (hnone : pickMin g.stations.length st.visited st.eta = none) :
    ∀ v, st.eta v = etaSpec g dest v := by
  have hT : ∀ i, i < g.stations.length → st.visited i = false → st.eta i = ⊤ :=
    pickMin_none_spec g.stations.length st.visited st.eta hnone
  have hdvis : st.visited dest = true := by
    cases hdv : st.visited dest with
    | true => rfl
    | false =>
      exfalso
      have h0 := hT dest hdest hdv
      rw [hinv.2.2.2.1] at h0
      exact ENNReal.zero_ne_top h0
  have hcost : ∀ (P : List ℕ) (v : ℕ), v < g.stations.length → st.visited v = false →
      IsPathTo g dest v P → pathCost g dest v P = ⊤ := by
    intro P
    induction P with
    | nil =>
      intro v _ hvF hP
      have hveq : v = dest := hP
      rw [hveq, hdvis] at hvF
      exact Bool.noConfusion hvF
    | cons w rest ih =>
      intro v hvN hvF hP
      have hP' : lineAdjacent g v w = true ∧ IsPathTo g dest w rest := hP
      obtain ⟨hadj, hrest⟩ := hP'
      show edgeTimeMs g v w + nodeTransferMs g w dest + pathCost g dest w rest = ⊤
      cases hw : st.visited w with
      | true =>
        have h3 : st.eta v ≤ edgeTimeMs g v w + nodeTransferMs g w dest + st.eta w :=
          hinv.2.2.1 w v hw hadj hvN
        rw [hT v hvN hvF] at h3
        have h4 : edgeTimeMs g v w + nodeTransferMs g w dest + st.eta w = ⊤ :=
          top_le_iff.mp h3
        have h5 : st.eta w ≤ pathCost g dest w rest := by
          rw [hinv.1 w hw]
          exact etaSpec_le_pathCost g dest w rest hrest
        have h6 : edgeTimeMs g v w + nodeTransferMs g w dest + st.eta w ≤
            edgeTimeMs g v w + nodeTransferMs g w dest + pathCost g dest w rest :=
          add_le_add_left h5 _
        rw [h4] at h6
        exact top_le_iff.mp h6
      | false =>
        have hwN : w < g.stations.length := (lineAdjacent_lt g v w hids hadj).2
        rw [ih w hwN hw hrest, add_top]
  intro v
  by_cases hvN : v < g.stations.length
  · cases hv : st.visited v with
    | true => exact hinv.1 v hv
    | false =>
      rw [hT v hvN hv]
      symm
      rw [etaSpec, iInf_eq_top]
      intro p
      exact hcost p.1 v hvN hv p.2
  · push_neg at hvN
    rw [hinv.2.2.2.2 v hvN, etaSpec_out_of_range g dest v hids hdest hvN]

/-- The fuel-bounded loop computes the spec value at every index once the
invariant holds and the fuel covers the unvisited count. -/
theorem dijkstraLoop_exact (g : Game) (dest : ℕ)
    (hids : ∀ l ∈ g.lines, ∀ si ∈ l.stations, si < g.stations.length)
    (hdest : dest < g.stations.length) :
    ∀ (fuel : ℕ) (st : ETAState), DijkstraInv g dest st →
      ((Finset.range g.stations.length).filter
        (fun i => st.visited i = false)).card ≤ fuel →
      ∀ v, (dijkstraLoop g dest g.stations.length fuel st).eta v = etaSpec g dest v := by
  intro fuel
  induction fuel with
  | zero =>
    intro st hinv hcard v
    show st.eta v = etaSpec g dest v
    have hall : ∀ i, i < g.stations.length → st.visited i = true := by
      intro i hi
      have hempty : ((Finset.range g.stations.length).filter
          (fun i => st.visited i = false)) = ∅ :=
        Finset.card_eq_zero.mp (Nat.le_zero.mp hcard)
      cases hb : st.visited i with
      | true => rfl
      | false =>
        exfalso
        have hmemf : i ∈ (Finset.range g.stations.length).filter
            (fun i => st.visited i = false) :=
          Finset.mem_filter.mpr ⟨Finset.mem_range.mpr hi, hb⟩
        rw [hempty] at hmemf
        exact absurd hmemf (Finset.not_mem_empty i)
    by_cases hvN : v < g.stations.length
    · exact hinv.1 v (hall v hvN)
    · push_neg at hvN
      rw [hinv.2.2.2.2 v hvN, etaSpec_out_of_range g dest v hids hdest hvN]
  | succ fuel ih =>
    intro st hinv hcard v
    rw [dijkstraLoop]
    cases hstep : dijkstraStep g dest g.stations.length st with
    | none =>
      show st.eta v = etaSpec g dest v
      have hnone : pickMin g.stations.length st.visited st.eta = none := by
        unfold dijkstraStep at hstep
        cases hpick : pickMin g.stations.length st.visited st.eta with
        | none => rfl
        | some u =>
          rw [hpick] at hstep
          exact Option.noConfusion hstep
      exact dijkstra_none_exact g dest hids hdest st hinv hnone v
    | some st' =>
      show (dijkstraLoop g dest g.stations.length fuel st').eta v = etaSpec g dest v
      unfold dijkstraStep at hstep
      cases hpick : pickMin g.stations.length st.visited st.eta with
      | none =>
        rw [hpick] at hstep
        exact Option.noConfusion hstep
      | some u =>
        rw [hpick] at hstep
        have hst' : st' =
            { visited := fun x => if x = u then true else st.visited x
              eta := relaxList g dest u (stationNeighbors g u) st.eta } :=
          (Option.some.inj hstep).symm
        subst hst'
        obtain ⟨huF, huN, hmin⟩ :=
          pickMin_some_spec g.stations.length st.visited st.eta u hpick
        have hinv' := dijkstraStep_preserves g dest hids hdest st u hinv hpick
        apply ih _ hinv'
        have humem : u ∈ (Finset.range g.stations.length).filter
            (fun i => st.visited i = false) :=
          Finset.mem_filter.mpr ⟨Finset.mem_range.mpr huN, huF⟩
        have hfeq : ((Finset.range g.stations.length).filter
            (fun i => (if i = u then true else st.visited i) = false)) =
            ((Finset.range g.stations.length).filter
              (fun i => st.visited i = false)).erase u := by
          ext i
          simp only [Finset.mem_filter, Finset.mem_erase, Finset.mem_range]
          by_cases hiu : i = u
          · rw [hiu]
            simp [huF]
          · simp [hiu]
        show ((Finset.range g.stations.length).filter
            (fun i => (if i = u then true else st.visited i) = false)).card ≤ fuel
        rw [hfeq, Finset.card_erase_of_mem humem]
        have hpos : 0 < ((Finset.range g.stations.length).filter
            (fun i => st.visited i = false)).card :=
          Finset.card_pos.mpr ⟨u, humem⟩
        omega

/-- **C1.**  routing.js `computeETAs(destIdx)` is a correct reverse Dijkstra:
in every game whose destination index denotes a real station and whose lines
mention only real station indices, the table it returns assigns to every
station index exactly `etaSpec` — the infimum, over all paths to the
destination in the undirected graph induced by consecutive station pairs of
all lines, of the summed edge times (geometric distance over the clamped
configured speed) plus the minimum-connection transfer penalty (discounted
at interchanges and scaled by the global multiplier) at every intermediate
node — and in particular `⊤` exactly for stations with no path. -/
theorem computeETAs_correct (g : Game) (dest : ℕ)
    (hdest : dest < g.stations.length)
    (hids : ∀ l ∈ g.lines, ∀ si ∈ l.stations, si < g.stations.length) :
    ∀ v, computeETAs g dest v = etaSpec g dest v := by
  intro v
  have hinv0 : DijkstraInv g dest
      { eta := fun i => if i = dest then 0 else ⊤, visited := fun _ => false } := by
    unfold DijkstraInv
    refine ⟨?_, ?_, ?_, ?_, ?_⟩
    · intro u hu
      exact Bool.noConfusion hu
    · intro w
      show etaSpec g dest w ≤ if w = dest then 0 else ⊤
      by_cases hw : w = dest
      · rw [if_pos hw, hw, etaSpec_dest]
      · rw [if_neg hw]
        exact le_top
    · intro a b ha _ _
      exact Bool.noConfusion ha
    · show (if dest = dest then (0 : ℝ≥0∞) else ⊤) = 0
      rw [if_pos rfl]
    · intro w hw
      show (if w = dest then (0 : ℝ≥0∞) else ⊤) = ⊤
      have hne : w ≠ dest := by omega
      rw [if_neg hne]
  have hcard0 : ((Finset.range g.stations.length).filter
      (fun i => ({ eta := fun i => if i = dest then 0 else ⊤, visited := fun _ => false } : ETAState).visited i = false)).card ≤
      g.stations.length := by
    have hfeq : ((Finset.range g.stations.length).filter
        (fun i => ({ eta := fun i => if i = dest then 0 else ⊤, visited := fun _ => false } : ETAState).visited i = false)) =
        Finset.range g.stations.length :=
      Finset.filter_eq_self.mpr fun x _ => rfl
    rw [hfeq, Finset.card_range]
  exact dijkstraLoop_exact g dest hids hdest g.stations.length
    { eta := fun i => if i = dest then 0 else ⊤, visited := fun _ => false }
    hinv0 hcard0 v

/-- Witness for C1 at a concrete one-station, line-free world: the table
value and the path infimum agree at the only station. -/
theorem computeETAs_correct_witness :
    (0 < gameC3.stations.length ∧
      (∀ l ∈ gameC3.lines, ∀ si ∈ l.stations, si < gameC3.stations.length)) ∧
      computeETAs gameC3 0 0 = etaSpec gameC3 0 0 :=
  ⟨⟨by simp [gameC3, baseGame], by simp [gameC3, baseGame]⟩,
    computeETAs_correct gameC3 0 (by simp [gameC3, baseGame])
      (by simp [gameC3, baseGame]) 0⟩
